import Mathlib

/-
Verification development for the EV chatbot query engine
(source: ev_chatbot_streamlit.py).

The engine is embedded shallowly:
  * Python strings are modelled as List Char (abbrev Str); str.lower is
    modelled with Char.toLower (they agree on ASCII, which is all the
    keyword patterns and dataset values use).
  * The pandas DataFrame is modelled as a list of named columns, each
    either numeric (List rationals) or categorical (List Str).  Missing
    numeric entries (NaN) are outside the model except where noted.
  * Python floats are modelled by rationals.  All float computations the
    engine performs (SequenceMatcher ratio compared with 0.25, tuple
    comparison of ratios, round-half-even in the money format) are exact
    at the relevant scale: 2*M/T rounds across 0.25 only when the exact
    rational equals 0.25, and two ratios of strings shorter than 2^26
    characters collide as doubles only if equal as rationals.
  * re.search is modelled by an explicit leftmost scan; for the three
    patterns used (digits, then \s*, then a literal-word alternation)
    backtracking cannot produce any other match, because none of the
    alternation words starts with a digit or a space.
  * difflib.get_close_matches / SequenceMatcher is modelled faithfully:
    b2j with the autojunk rule (len(b) >= 200 and count > len(b)//100+1),
    the per-row dynamic programming of find_longest_match, the two
    non-junk extension loops (isjunk is None, so bjunk is empty and the
    two junk extension loops are no-ops), the recursive total of
    get_matching_blocks (merging adjacent blocks does not change the
    total), and the cutoff test: real_quick_ratio and quick_ratio are
    upper bounds of ratio, so a candidate is kept iff ratio >= cutoff.
  * The model artifact is an opaque predictor returning Except:
    an error models any exception raised inside the try block
    (pandas mode on an empty column, model.predict, indexing [0]).
-/

set_option maxHeartbeats 4000000
set_option maxRecDepth 10000

abbrev Str := List Char

/-- Lowercasing, modelling str.lower on the ASCII fragment. -/
def lowerStr (s : Str) : Str := s.map Char.toLower

/-- Does the needle occur at the start of the haystack (first argument is
the needle)? -/
def startsWithStr : Str → Str → Bool
  | [], _ => true
  | _ :: _, [] => false
  | c :: cs, d :: ds => c == d && startsWithStr cs ds

/-- Substring containment, modelling the Python operator in. -/
def isSubstr (needle hay : Str) : Bool :=
  (List.range (hay.length + 1)).any (fun i => startsWithStr needle (hay.drop i))

/-- Python string less-than: lexicographic by code point. -/
def strLt : Str → Str → Bool
  | [], [] => false
  | [], _ :: _ => true
  | _ :: _, [] => false
  | c :: cs, d :: ds =>
      decide (c.toNat < d.toNat) || (decide (c.toNat = d.toNat) && strLt cs ds)

/-- Numeric value of a run of decimal digits, modelling int(...). -/
def natOfDigits (ds : Str) : Nat := ds.foldl (fun n c => 10 * n + (c.toNat - 48)) 0

/-- The characters matched by the regex class backslash-s (ASCII part). -/
def isSpaceChar (c : Char) : Bool :=
  c == ' ' || c == '\t' || c == '\n' || c == '\r' || c == '\x0b' || c == '\x0c'

/--
Models re.search of a pattern digits, optional spaces, then an ordered
alternation of literal unit words, returning the two captured groups of
the leftmost match.  The scan tries every start position left to right;
at a digit it takes the maximal digit run, the maximal space run, and
the first unit word that is a prefix of the rest.  Backtracking inside
the real regex cannot yield any other match because no unit word starts
with a digit or a space.
-/
def scanNumUnit (units : List Str) : Str → Option (Nat × Str)
  | [] => none
  | c :: rest =>
    if c.isDigit then
      let ds := List.takeWhile Char.isDigit (c :: rest)
      let after := List.dropWhile Char.isDigit (c :: rest)
      let afterSp := List.dropWhile isSpaceChar after
      match units.find? (fun u => startsWithStr u afterSp) with
      | some u => some (natOfDigits ds, u)
      | none => scanNumUnit units rest
    else scanNumUnit units rest

/-
difflib.SequenceMatcher(None, a, b), as used by get_close_matches:
a is a candidate string, b is the query word.
-/

/-- The b2j table of SequenceMatcher: the ascending list of positions of a
character in b, with the autojunk rule (for len(b) >= 200, characters
occurring more than len(b)//100 + 1 times are dropped from b2j). -/
def b2jOf (b : Str) : Char → List Nat := fun c =>
  if 200 ≤ b.length ∧ b.length / 100 + 1 < b.count c then []
  else (List.range b.length).filter (fun j => b.getD j ' ' == c)

/-- The running best block of find_longest_match. -/
structure FlmBest where
  besti : Nat
  bestj : Nat
  bestsize : Nat
deriving DecidableEq

/--
The inner loop of find_longest_match for one row i: walk the ascending
position list js of the character a i in b, skipping j < blo and
breaking at j >= bhi; for each j the new chain length is
j2len(j-1) + 1 read from the previous row (0 for an absent key, and the
key -1 is never present, hence the j = 0 guard); the best block is
updated on a strictly longer chain.  The first component of the result
is the new j2len map (total function, 0 meaning absent). -/
def flmRow (i blo bhi : Nat) (old : Nat → Nat) :
    List Nat → (Nat → Nat) → FlmBest → ((Nat → Nat) × FlmBest)
  | [], news, best => (news, best)
  | j :: js, news, best =>
    if j < blo then flmRow i blo bhi old js news best
    else if bhi ≤ j then (news, best)
    else
      let k := (if j = 0 then 0 else old (j - 1)) + 1
      flmRow i blo bhi old js (fun x => if x = j then k else news x)
        (if best.bestsize < k then ⟨i + 1 - k, j + 1 - k, k⟩ else best)

/-- The outer loop of find_longest_match over rows i = alo..ahi-1 (cnt is
the number of rows left); each row starts from an empty newj2len. -/
def flmRows (b2j : Char → List Nat) (a : Str) (blo bhi : Nat) :
    Nat → Nat → (Nat → Nat) → FlmBest → FlmBest
  | _, 0, _, best => best
  | i, cnt + 1, old, best =>
    let r := flmRow i blo bhi old (b2j (a.getD i ' ')) (fun _ => 0) best
    flmRows b2j a blo bhi (i + 1) cnt r.1 r.2

/-- First extension loop: extend the best block to the left while the
characters match (isjunk is None so bjunk is empty and the junk guard
is vacuous).  Fuel bounds the iteration count; besti decreases by one
per step so besti fuel always suffices. -/
def extLeft (a b : Str) (alo blo : Nat) : Nat → FlmBest → FlmBest
  | 0, best => best
  | fuel + 1, best =>
    if alo < best.besti ∧ blo < best.bestj ∧
        a.getD (best.besti - 1) ' ' = b.getD (best.bestj - 1) ' ' then
      extLeft a b alo blo fuel ⟨best.besti - 1, best.bestj - 1, best.bestsize + 1⟩
    else best

/-- Second extension loop: extend the best block to the right while the
characters match. -/
def extRight (a b : Str) (ahi bhi : Nat) : Nat → FlmBest → FlmBest
  | 0, best => best
  | fuel + 1, best =>
    if best.besti + best.bestsize < ahi ∧ best.bestj + best.bestsize < bhi ∧
        a.getD (best.besti + best.bestsize) ' ' = b.getD (best.bestj + best.bestsize) ' ' then
      extRight a b ahi bhi fuel ⟨best.besti, best.bestj, best.bestsize + 1⟩
    else best

/-- SequenceMatcher.find_longest_match on the ranges a(alo..ahi) and
b(blo..bhi).  The two junk extension loops of the original are no-ops
here because isjunk is None, so they are omitted. -/
def find_longest_match (a b : Str) (b2j : Char → List Nat) (alo ahi blo bhi : Nat) :
    FlmBest :=
  let best0 := flmRows b2j a blo bhi alo (ahi - alo) (fun _ => 0) ⟨alo, blo, 0⟩
  let best1 := extLeft a b alo blo best0.besti best0
  extRight a b ahi bhi (ahi - (best1.besti + best1.bestsize)) best1

/-- Total size of all matching blocks: the recursion of
get_matching_blocks (the queue order and the final merge of adjacent
blocks do not change the total).  Each recursive call strictly shrinks
the a-range, so fuel = length of a + 1 never runs out on the ranges
actually reached. -/
def matchTotalAux (a b : Str) (b2j : Char → List Nat) :
    Nat → Nat → Nat → Nat → Nat → Nat
  | 0, _, _, _, _ => 0
  | fuel + 1, alo, ahi, blo, bhi =>
    let m := find_longest_match a b b2j alo ahi blo bhi
    if m.bestsize = 0 then 0
    else
      m.bestsize + matchTotalAux a b b2j fuel alo m.besti blo m.bestj
        + matchTotalAux a b b2j fuel (m.besti + m.bestsize) ahi
            (m.bestj + m.bestsize) bhi

/-- Total matched characters between candidate a and word b. -/
def matchTotal (a b : Str) : Nat :=
  matchTotalAux a b (b2jOf b) (a.length + 1) 0 a.length 0 b.length

/-- SequenceMatcher.ratio as an exact rational: 2*M/T, and 1 when both
strings are empty (the T = 0 case of _calculate_ratio).  This is the
specification-level score; the executable comparisons below work on the
numerator and denominator directly (rational arithmetic is irreducible
for the kernel) and are proved equivalent. -/
def simScore (a b : Str) : ℚ :=
  if a.length + b.length = 0 then 1
  else (2 * matchTotal a b : ℚ) / ((a.length : ℚ) + (b.length : ℚ))

/-- The denominator of the ratio of candidate x against the word. -/
def scoreDen (x w : Str) : Nat := x.length + w.length

/-- The cutoff test of get_close_matches with cutoff 0.25, by cross
multiplication: 2M/T >= 1/4 iff T <= 8M (and the empty-empty case has
ratio 1, which also passes).  real_quick_ratio and quick_ratio are
upper bounds of ratio, so the three-step test of the source keeps a
candidate iff ratio >= 0.25. -/
def passesCutoff (word x : Str) : Bool :=
  decide (scoreDen x word ≤ 8 * matchTotal x word)

/-- ratio of x against w strictly below the ratio of y against w, by
cross multiplication (the empty-empty ratio is 1). -/
def scoreLtB (x y w : Str) : Bool :=
  if scoreDen x w = 0 then
    if scoreDen y w = 0 then false
    else decide (scoreDen y w < 2 * matchTotal y w)
  else if scoreDen y w = 0 then decide (2 * matchTotal x w < scoreDen x w)
  else decide (2 * matchTotal x w * scoreDen y w < 2 * matchTotal y w * scoreDen x w)

/-- Equality of the two ratios against w, by cross multiplication. -/
def scoreEqB (x y w : Str) : Bool :=
  if scoreDen x w = 0 then
    if scoreDen y w = 0 then true
    else decide (scoreDen y w = 2 * matchTotal y w)
  else if scoreDen y w = 0 then decide (2 * matchTotal x w = scoreDen x w)
  else decide (2 * matchTotal x w * scoreDen y w = 2 * matchTotal y w * scoreDen x w)

/-- Python tuple comparison (ratio x, x) > (ratio b, b), as used by
heapq.nlargest on the (ratio, candidate) pairs. -/
def betterCand (x b w : Str) : Bool :=
  scoreLtB b x w || (scoreEqB x b w && strLt b x)

/-- The accumulator pass of heapq.nlargest(1, result): keep the maximum
(ratio, candidate) tuple, keeping the earlier one on full tuple
equality (nlargest is equivalent to a stable descending sort). -/
def pickBest (word : Str) : List Str → Option Str → Option Str
  | [], acc => acc
  | x :: xs, acc =>
    match acc with
    | none => pickBest word xs (some x)
    | some b =>
      pickBest word xs (if betterCand x b word then some x else some b)

/-- difflib.get_close_matches(word, cands, n=1, cutoff=0.25), returning
the single best candidate if any clears the cutoff. -/
def get_close_matches1 (word : Str) (cands : List Str) : Option Str :=
  pickBest word (cands.filter (passesCutoff word)) none

/-- Python list.index: index of the first occurrence. -/
def indexOfStr : List Str → Str → Nat
  | [], _ => 0
  | x :: xs, s => if x == s then 0 else indexOfStr xs s + 1

/- The dataset: a pandas DataFrame as a list of named columns. -/

inductive ColData where
  | nums (xs : List ℚ)
  | strs (xs : List Str)
deriving DecidableEq

abbrev Table := List (String × ColData)

def lookupCol (df : Table) (name : String) : Option ColData :=
  (df.find? (fun c => c.1 == name)).map (fun c => c.2)

/-- The values of a categorical column (defaults to [] when absent; the
claims supply the column-presence hypotheses explicitly). -/
def strColD (df : Table) (name : String) : List Str :=
  match lookupCol df name with
  | some (ColData.strs xs) => xs
  | _ => []

def numColD (df : Table) (name : String) : List ℚ :=
  match lookupCol df name with
  | some (ColData.nums xs) => xs
  | _ => []

/-- Number of rows: the common length of the columns (first column). -/
def nRows : Table → Nat
  | [] => 0
  | c :: _ => match c.2 with
    | ColData.nums xs => xs.length
    | ColData.strs xs => xs.length

def strAt (df : Table) (name : String) (i : Nat) : Str := (strColD df name).getD i []

def numAt? (df : Table) (name : String) (i : Nat) : Option ℚ := (numColD df name).get? i

/- The query parser: extract_query_details. -/

structure Details where
  battery : Option ℚ
  range : Option ℚ
  budget : Option Nat
  model : Option Str
  brand : Option Str
deriving DecidableEq

def batteryUnits : List Str := ["kwh".toList, "kw".toList, "battery".toList]

def rangeUnits : List Str := ["km".toList, "range".toList]

def budgetUnits : List Str :=
  ["lakh".toList, "lakhs".toList, "million".toList, "cr".toList, "crore".toList]

/-- The unit conversion of the budget branch: the substring test
(the Python test is the word lakh in u) and the list test u in [cr, crore]. -/
def budgetValue (n : Nat) (u : Str) : Nat :=
  if isSubstr ("lakh".toList) u then n * 100000
  else if u == "cr".toList || u == "crore".toList then n * 10000000
  else n * 1000000

/-- The lowercased brand-space-model candidate list, in table order. -/
def combinedOf (df : Table) : List Str :=
  List.zipWith (fun b m => lowerStr (b ++ ' ' :: m))
    (strColD df ("brand")) (strColD df ("model"))

/-- extract_query_details(text, df).  The brand and model fields are the
original (non-lowercased) cell values of the fuzzily matched row, as in
the source (str of a string cell is the cell itself). -/
def extract_query_details (text : Str) (df : Table) : Details :=
  let text_low := lowerStr text
  let batteryV := (scanNumUnit batteryUnits text_low).map (fun p => ((p.1 : ℚ)))
  let rangeV := (scanNumUnit rangeUnits text_low).map (fun p => ((p.1 : ℚ)))
  let budgetV := (scanNumUnit budgetUnits text_low).map (fun p => budgetValue p.1 p.2)
  match get_close_matches1 text_low (combinedOf df) with
  | some s =>
    let idx := indexOfStr (combinedOf df) s
    { battery := batteryV, range := rangeV, budget := budgetV,
      brand := some ((strColD df ("brand")).getD idx []),
      model := some ((strColD df ("model")).getD idx []) }
  | none =>
    { battery := batteryV, range := rangeV, budget := budgetV,
      brand := none, model := none }

/- The intent detector. -/

/-- detect_intent(text): case-insensitive keyword containment in fixed
priority order, first match wins. -/
def detect_intent (text : Str) : Str :=
  let t := lowerStr text
  if isSubstr ("price".toList) t || isSubstr ("estimate".toList) t then "price".toList
  else if isSubstr ("under".toList) t || isSubstr ("budget".toList) t then "budget".toList
  else if isSubstr ("recommend".toList) t || isSubstr ("suggest".toList) t then
    "recommend".toList
  else if (["info".toList, "details".toList, "specs".toList, "tell me about".toList]).any
      (fun k => isSubstr k t) then "info".toList
  else "unknown".toList

/-- The intent classifier as the specification describes it: the five
rules of section 4.4 in priority order, first match wins. -/
def detectIntentSpec (text : Str) : Str :=
  let t := lowerStr text
  if isSubstr ("price".toList) t ∨ isSubstr ("estimate".toList) t then "price".toList
  else if isSubstr ("under".toList) t ∨ isSubstr ("budget".toList) t then "budget".toList
  else if isSubstr ("recommend".toList) t ∨ isSubstr ("suggest".toList) t then
    "recommend".toList
  else if isSubstr ("info".toList) t ∨ isSubstr ("details".toList) t ∨
      isSubstr ("specs".toList) t ∨ isSubstr ("tell me about".toList) t then "info".toList
  else "unknown".toList

/- The prediction feature row. -/

inductive Cell where
  | num (q : ℚ)
  | nan
  | strv (s : Str)
deriving DecidableEq

abbrev PredRow := List (String × Cell)

/-- The opaque model artifact: predict(row)[0], an error modelling any
raised exception. -/
abbrev PredModel := PredRow → Except String ℚ

/-- Ascending insertion sort for rationals. -/
def insertQ (q : ℚ) : List ℚ → List ℚ
  | [] => [q]
  | y :: ys => if y ≤ q then y :: insertQ q ys else q :: y :: ys

def sortQ : List ℚ → List ℚ
  | [] => []
  | x :: xs => insertQ x (sortQ xs)

/-- pandas Series.median: the middle of the sorted values, the mean of
the two middles for an even count, NaN for an empty column. -/
def colMedian (xs : List ℚ) : Cell :=
  match xs with
  | [] => Cell.nan
  | _ =>
    let ys := sortQ xs
    if xs.length % 2 = 1 then Cell.num (ys.getD (xs.length / 2) 0)
    else Cell.num ((ys.getD (xs.length / 2 - 1) 0 + ys.getD (xs.length / 2) 0) / 2)

/-- One step of the mode fold: keep the candidate with the larger count
in the whole column, and the smaller string (Python order) on a count
tie. -/
def modeStep (xs : List Str) (acc : Option Str) (x : Str) : Option Str :=
  match acc with
  | none => some x
  | some b =>
    if xs.count b < xs.count x ∨ (xs.count x = xs.count b ∧ strLt x b) then some x
    else some b

/-- pandas Series.mode()[0]: a most frequent value, the smallest (Python
string order) among ties; none models the IndexError on an empty
column. -/
def colMode (xs : List Str) : Option Str := xs.foldl (modeStep xs) none

/-- One cell of the synthesized feature row: the supplied battery or
range when the column name says so, else the column summary (median for
numeric dtype, mode for categorical dtype). -/
def buildCell (battery range_km : ℚ) (name : String) (cd : ColData) : Except String Cell :=
  if name = "battery_capacity_kwh" then Except.ok (Cell.num battery)
  else if name = "range_km" then Except.ok (Cell.num range_km)
  else match cd with
    | ColData.nums xs => Except.ok (colMedian xs)
    | ColData.strs xs =>
      match colMode xs with
      | some m => Except.ok (Cell.strv m)
      | none => Except.error ("index 0 is out of bounds for axis 0 with size 0")

/-- build_prediction_row(df, battery, range_km): one cell per column of
df, in column order; an error models the IndexError of mode on an empty
categorical column (raised inside the callers try block). -/
def build_prediction_row (df : Table) (battery range_km : ℚ) : Except String PredRow :=
  match df with
  | [] => Except.ok []
  | (name, cd) :: rest =>
    match buildCell battery range_km name cd with
    | Except.error e => Except.error e
    | Except.ok c =>
      match build_prediction_row rest battery range_km with
      | Except.error e => Except.error e
      | Except.ok row => Except.ok ((name, c) :: row)

/-- df.drop(columns=names, errors=ignore). -/
def dropColumns (df : Table) (names : List String) : Table :=
  df.filter (fun c => !(names.contains c.1))

/- Output formatting. -/

/-- Decimal digits of a natural number. -/
def natRepr (n : Nat) : Str := (Nat.repr n).toList

/-- Insert a comma after every group of three digits, walking the
reversed digit list; the counter is the number of digits still to copy
before the next comma. -/
def commaRev : Str → Nat → Str
  | [], _ => []
  | c :: cs, 0 => ',' :: c :: commaRev cs 2
  | c :: cs, k + 1 => c :: commaRev cs k

/-- Thousands grouping of a digit string. -/
def commaGroup (ds : Str) : Str := (commaRev ds.reverse 3).reverse

/-- Round half to even, the rounding of the float format .0f, computed
on the numerator and denominator: f is the floor, and the fractional
remainder r = q - f satisfies r = rnum/den with 0 <= rnum < den; the
comparisons of r against one half are by cross multiplication. -/
def roundHalfEven (q : ℚ) : ℤ :=
  let f := q.num.fdiv (q.den : ℤ)
  let rnum := q.num - f * (q.den : ℤ)
  if 2 * rnum < (q.den : ℤ) then f
  else if (q.den : ℤ) < 2 * rnum then f + 1
  else if f % 2 = 0 then f else f + 1

/-- The money format of the price reply: the float format with a comma
separator and zero decimals. -/
def moneyFmt (p : ℚ) : Str :=
  let n := roundHalfEven p
  (if n < 0 then ['-'] else []) ++ commaGroup (natRepr n.natAbs)

/-- Rendering of a float cell in the list/detail replies.  Integer-valued
floats print as digits followed by .0 exactly as in Python; the
non-integral fallback is num/den (the claims only exercise the integral
case). -/
def showQFloat (q : ℚ) : Str :=
  if q.den = 1 then
    (if q.num < 0 then ['-'] else []) ++ natRepr q.num.natAbs ++ ".0".toList
  else
    (if q.num < 0 then ['-'] else []) ++ natRepr q.num.natAbs ++ ['/'] ++ natRepr q.den

def showNumCell : Option ℚ → Str
  | some q => showQFloat q
  | none => "nan".toList

/-- The join of str.join with a newline separator. -/
def joinLines : List Str → Str
  | [] => []
  | [l] => l
  | l :: l2 :: ls => l ++ '\n' :: joinLines (l2 :: ls)

/- The chatbot engine. -/

def msgModelMissing : Str := "Price prediction unavailable (model file missing).".toList

def msgProvideBoth : Str := "Please provide both **battery size (kWh)** and **range (km)**.".toList

def msgBudgetAsk : Str := "Please provide a budget like **under 15 lakh**.".toList

def msgNoBudgetMatch : Str := "No EVs match this budget.".toList

def msgNoModelFound : Str := "Model not found in dataset.".toList

def msgNoModelIdent : Str :=
  "I couldn".toList ++ [Char.ofNat 39] ++ "t identify a specific EV model.".toList

def msgUnknown : Str :=
  "I didn".toList ++ [Char.ofNat 39] ++
  "t understand. Try asking about **price**, **budget**, **recommendations**, or **EV details**.".toList

/-- Python truthiness of the optional float entities: None and 0.0 are
falsy. -/
def falsyQ : Option ℚ → Bool
  | none => true
  | some q => q == 0

/-- Python truthiness of the optional integer budget. -/
def falsyNat : Option Nat → Bool
  | none => true
  | some n => n == 0

/-- Python truthiness of the optional string entities: None and the empty
string are falsy. -/
def falsyStr : Option Str → Bool
  | none => true
  | some s => s.isEmpty

/-- The row indices kept by the budget filter price_inr <= budget
(boolean indexing keeps the existing row order). -/
def budgetRowIdxs (df : Table) (b : Nat) : List Nat :=
  (List.range (nRows df)).filter (fun i =>
    match numAt? df ("price_inr") i with
    | some p => decide (p ≤ (b : ℚ))
    | none => false)

def fmtBudgetLine (df : Table) (i : Nat) : Str :=
  "- ".toList ++ strAt df ("brand") i ++ " ".toList ++ strAt df ("model") i ++
  " (".toList ++ showNumCell (numAt? df ("range_km") i) ++ " km)".toList

/-- Sort key for the recommend branch. -/
def rangeKeyAt (df : Table) (i : Nat) : ℚ := (numAt? df ("range_km") i).getD 0

def insertIdxBy (le : Nat → Nat → Bool) (x : Nat) : List Nat → List Nat
  | [] => [x]
  | y :: ys => if le y x then y :: insertIdxBy le x ys else x :: y :: ys

def sortIdxBy (le : Nat → Nat → Bool) : List Nat → List Nat
  | [] => []
  | x :: xs => insertIdxBy le x (sortIdxBy le xs)

/-- sort_values(range_km, ascending=False).head(5): the row indices by
descending range (the tie order of the pandas quicksort is unspecified;
this model keeps ties stable). -/
def recommendIdxs (df : Table) : List Nat :=
  (sortIdxBy (fun i j => decide (rangeKeyAt df j ≤ rangeKeyAt df i))
    (List.range (nRows df))).take 5

def fmtRecLine (df : Table) (i : Nat) : Str :=
  "- ".toList ++ strAt df ("brand") i ++ " ".toList ++ strAt df ("model") i ++
  " – ".toList ++ showNumCell (numAt? df ("range_km") i) ++ " km".toList

/-- The exact brand-and-model row lookup of the info branch. -/
def infoRowIdxs (df : Table) (b m : Str) : List Nat :=
  (List.range (nRows df)).filter (fun i =>
    strAt df ("brand") i == b && strAt df ("model") i == m)

/-- Rendering of row.get(name, N/A) in the info reply. -/
def showCellGet (df : Table) (name : String) (i : Nat) : Str :=
  match lookupCol df name with
  | none => "N/A".toList
  | some (ColData.nums xs) => showNumCell (xs.get? i)
  | some (ColData.strs xs) => xs.getD i []

def fmtInfo (df : Table) (i : Nat) : Str :=
  "### 🚗 ".toList ++ strAt df ("brand") i ++ " ".toList ++ strAt df ("model") i ++
  "\n- Battery: ".toList ++ showCellGet df ("battery_capacity_kwh") i ++
  " kWh\n- Range: ".toList ++ showCellGet df ("range_km") i ++
  " km\n- Body: ".toList ++ showCellGet df ("body_style") i ++
  "\n- Charging: ".toList ++ showCellGet df ("charging_type") i

/-- chatbot_reply(q).  The module-level globals model and data become the
explicit parameters mdl and df; the sequential early-return ifs of the
source become an if-else chain. -/
def chatbot_reply (mdl : Option PredModel) (df : Table) (q : Str) : Str :=
  let d := extract_query_details q df
  if detect_intent q = "price".toList then
    match mdl with
    | none => msgModelMissing
    | some predict =>
      if falsyQ d.battery || falsyQ d.range then msgProvideBoth
      else
        match build_prediction_row (dropColumns df ["price_inr", "source_url"])
            (d.battery.getD 0) (d.range.getD 0) with
        | Except.error e => "Prediction failed: ".toList ++ e.toList
        | Except.ok row =>
          match predict row with
          | Except.ok price => "Estimated Price: **₹".toList ++ moneyFmt price ++ "**".toList
          | Except.error e => "Prediction failed: ".toList ++ e.toList
  else if detect_intent q = "budget".toList then
    if falsyNat d.budget then msgBudgetAsk
    else
      let idxs := budgetRowIdxs df (d.budget.getD 0)
      if idxs = [] then msgNoBudgetMatch
      else joinLines ((idxs.take 5).map (fmtBudgetLine df))
  else if detect_intent q = "recommend".toList then
    joinLines ((recommendIdxs df).map (fmtRecLine df))
  else if detect_intent q = "info".toList then
    if falsyStr d.model then msgNoModelIdent
    else
      let idxs := infoRowIdxs df (d.brand.getD []) (d.model.getD [])
      match idxs with
      | [] => msgNoModelFound
      | i :: _ => fmtInfo df i
  else msgUnknown

/- Field equations of the extractor: the three numeric fields do not
depend on the fuzzy-match outcome, and the brand and model fields are
set from the matched row or left absent together. -/

theorem extract_battery_eq (text : Str) (df : Table) :
    (extract_query_details text df).battery
      = (scanNumUnit batteryUnits (lowerStr text)).map (fun p => ((p.1 : ℚ))) := by
  simp only [extract_query_details]
  cases get_close_matches1 (lowerStr text) (combinedOf df) <;> rfl

theorem extract_range_eq (text : Str) (df : Table) :
    (extract_query_details text df).range
      = (scanNumUnit rangeUnits (lowerStr text)).map (fun p => ((p.1 : ℚ))) := by
  simp only [extract_query_details]
  cases get_close_matches1 (lowerStr text) (combinedOf df) <;> rfl

theorem extract_budget_eq (text : Str) (df : Table) :
    (extract_query_details text df).budget
      = (scanNumUnit budgetUnits (lowerStr text)).map (fun p => budgetValue p.1 p.2) := by
  simp only [extract_query_details]
  cases get_close_matches1 (lowerStr text) (combinedOf df) <;> rfl

theorem extract_brand_of_none (text : Str) (df : Table)
    (h : get_close_matches1 (lowerStr text) (combinedOf df) = none) :
    (extract_query_details text df).brand = none ∧
      (extract_query_details text df).model = none := by
  simp only [extract_query_details, h]
  exact ⟨trivial, trivial⟩

theorem extract_brand_of_some (text : Str) (df : Table) (s : Str)
    (h : get_close_matches1 (lowerStr text) (combinedOf df) = some s) :
    (extract_query_details text df).brand
        = some ((strColD df ("brand")).getD (indexOfStr (combinedOf df) s) []) ∧
      (extract_query_details text df).model
        = some ((strColD df ("model")).getD (indexOfStr (combinedOf df) s) []) := by
  simp only [extract_query_details, h]
  exact ⟨trivial, trivial⟩

/-- The unit captured by the scanner is one of the listed units. -/
theorem scanNumUnit_unit_mem (units : List Str) :
    ∀ (t : Str) (n : Nat) (u : Str), scanNumUnit units t = some (n, u) → u ∈ units := by
  intro t
  induction t with
  | nil => intro n u h; simp [scanNumUnit] at h
  | cons c rest ih =>
    intro n u h
    simp only [scanNumUnit] at h
    split at h
    · split at h
      · next u2 hfind =>
        injection h with h2
        injection h2 with hn hu
        subst hu
        exact List.mem_of_find?_eq_some hfind
      · exact ih n u h
    · exact ih n u h

/-- The budget unit conversion as the specification states it: lakh or
lakhs times 100,000; cr or crore times 10,000,000; any other matched
unit (million) times 1,000,000. -/
def budgetSpecValue (n : Nat) (u : Str) : Nat :=
  if u = "lakh".toList ∨ u = "lakhs".toList then n * 100000
  else if u = "cr".toList ∨ u = "crore".toList then n * 10000000
  else n * 1000000

/-- Claim C3: for every input text, extract_query_details sets the
budget from the first match of an integer followed by a unit word,
converting with the factors the specification lists (lakh/lakhs
100,000; cr/crore 10,000,000; million 1,000,000); the three examples of
the specification hold; and with no match the field is absent. -/
theorem C3_budget_parsing (df : Table) :
    (∀ t : Str, (extract_query_details t df).budget
        = Option.map (fun p => budgetSpecValue p.1 p.2) (scanNumUnit budgetUnits (lowerStr t)))
    ∧ (extract_query_details ("15 lakh".toList) df).budget = some 1500000
    ∧ (extract_query_details ("2 crore".toList) df).budget = some 20000000
    ∧ (extract_query_details ("3 million".toList) df).budget = some 3000000
    ∧ (∀ t : Str, scanNumUnit budgetUnits (lowerStr t) = none →
        (extract_query_details t df).budget = none) := by
  have key : ∀ t : Str, (extract_query_details t df).budget
      = Option.map (fun p => budgetSpecValue p.1 p.2) (scanNumUnit budgetUnits (lowerStr t)) := by
    intro t
    rw [extract_budget_eq]
    cases h : scanNumUnit budgetUnits (lowerStr t) with
    | none => rfl
    | some p =>
      obtain ⟨n, u⟩ := p
      have hu := scanNumUnit_unit_mem budgetUnits (lowerStr t) n u h
      have hv : budgetValue n u = budgetSpecValue n u := by
        fin_cases hu <;> rfl
      simp [hv]
  refine ⟨key, ?_, ?_, ?_, fun t h => by rw [key t, h]; rfl⟩ <;>
    (rw [extract_budget_eq]; decide)

/-- Claim C7: detect_intent is pure and total, it agrees with the
priority-ordered keyword rules of the specification, and it always
returns one of the five intents. -/
theorem C7_detect_intent (t : Str) :
    detect_intent t = detectIntentSpec t ∧
      detect_intent t ∈ ["price".toList, "budget".toList, "recommend".toList,
        "info".toList, "unknown".toList] := by
  constructor
  · simp only [detect_intent, detectIntentSpec, Bool.or_eq_true, List.any_cons,
      List.any_nil, Bool.or_false]
  · simp only [detect_intent]
    split_ifs <;> simp

/-- Claim C8: battery and range extraction are order-independent for
non-overlapping patterns (the two orderings of the forty kWh and three
hundred km clauses extract the same fields), and an input consisting of
a bare battery clause does not match the range pattern. -/
theorem C8_order_independence (df : Table) :
    (extract_query_details ("battery 40kwh range 300km".toList) df).battery = some 40
    ∧ (extract_query_details ("battery 40kwh range 300km".toList) df).range = some 300
    ∧ (extract_query_details ("range 300km battery 40kwh".toList) df).battery = some 40
    ∧ (extract_query_details ("range 300km battery 40kwh".toList) df).range = some 300
    ∧ (extract_query_details ("200kwh".toList) df).battery = some 200
    ∧ (extract_query_details ("200kwh".toList) df).range = none := by
  refine ⟨?_, ?_, ?_, ?_, ?_, ?_⟩ <;>
    first
      | (rw [extract_battery_eq]; decide)
      | (rw [extract_range_eq]; decide)

/-- Claim C1 counterexample: a one-row table whose candidate string
a-space-b occurs verbatim in the input, yet the input (padded with
nineteen z characters) dilutes the similarity ratio 2*3/25 below the
0.25 cutoff, so neither brand nor model is resolved — refuting the
claim that an exact brand-model substring always resolves to that
row. -/
theorem C1_counterexample :
    isSubstr ("a b".toList) (lowerStr ("a b".toList ++ List.replicate 19 'z')) = true
    ∧ combinedOf [("brand", ColData.strs [['a']]), ("model", ColData.strs [['b']])]
        = ["a b".toList]
    ∧ (extract_query_details ("a b".toList ++ List.replicate 19 'z')
        [("brand", ColData.strs [['a']]), ("model", ColData.strs [['b']])]).brand = none
    ∧ (extract_query_details ("a b".toList ++ List.replicate 19 'z')
        [("brand", ColData.strs [['a']]), ("model", ColData.strs [['b']])]).model = none := by
  decide

/-- Claim C2 counterexample: two rows whose candidates a-space-x and
b-space-y tie at ratio 0.4 against the input ab (both above the
cutoff); the source resolves to the second row because
heapq.nlargest compares (ratio, candidate) tuples and the
lexicographically greater candidate wins the tie — refuting the claimed
first-in-table-order tie-break. -/
theorem C2_counterexample :
    scoreEqB ("a x".toList) ("b y".toList) ("ab".toList) = true
    ∧ passesCutoff ("ab".toList) ("a x".toList) = true
    ∧ passesCutoff ("ab".toList) ("b y".toList) = true
    ∧ combinedOf [("brand", ColData.strs [['a'], ['b']]), ("model", ColData.strs [['x'], ['y']])]
        = ["a x".toList, "b y".toList]
    ∧ (extract_query_details ("ab".toList)
        [("brand", ColData.strs [['a'], ['b']]), ("model", ColData.strs [['x'], ['y']])]).brand
        = some ['b']
    ∧ (extract_query_details ("ab".toList)
        [("brand", ColData.strs [['a'], ['b']]), ("model", ColData.strs [['x'], ['y']])]).model
        = some ['y'] := by
  decide

/-- Claim C5 counterexample: the input asks for EVs under zero lakh, the
budget parses to 0, and the table has a row of price 0 that the claimed
filter would list; but the budget branch tests the parsed budget by
truthiness, so the reply is the guidance message and no filtering
happens — refuting the claim that any parsed budget leads to a
filter. -/
theorem C5_counterexample :
    detect_intent ("under 0 lakh".toList) = "budget".toList
    ∧ (extract_query_details ("under 0 lakh".toList)
        [("brand", ColData.strs [['a']]), ("model", ColData.strs [['b']]),
         ("price_inr", ColData.nums [0]), ("range_km", ColData.nums [100])]).budget = some 0
    ∧ budgetRowIdxs
        [("brand", ColData.strs [['a']]), ("model", ColData.strs [['b']]),
         ("price_inr", ColData.nums [0]), ("range_km", ColData.nums [100])] 0 ≠ []
    ∧ chatbot_reply none
        [("brand", ColData.strs [['a']]), ("model", ColData.strs [['b']]),
         ("price_inr", ColData.nums [0]), ("range_km", ColData.nums [100])]
        ("under 0 lakh".toList) = msgBudgetAsk := by
  decide

/-- Claim C6: for the price intent, a missing model artifact always
yields the unavailable message regardless of extracted entities, and
with the model available a missing battery or range yields the guidance
message (the model is never invoked: the reply is the guidance string
and no prediction occurs). -/
theorem C6_price_guards (df : Table) (q : Str) (pm : PredModel)
    (h : detect_intent q = "price".toList) :
    chatbot_reply none df q = msgModelMissing ∧
      ((extract_query_details q df).battery = none ∨ (extract_query_details q df).range = none →
        chatbot_reply (some pm) df q = msgProvideBoth) := by
  constructor
  · simp [chatbot_reply, h]
  · intro hor
    have hb : (falsyQ (extract_query_details q df).battery
        || falsyQ (extract_query_details q df).range) = true := by
      rcases hor with h1 | h1 <;> simp [falsyQ, h1]
    simp [chatbot_reply, h, hb]

/-- Witness for C6 at a concrete query with no extractable entities. -/
theorem C6_price_guards_witness :
    detect_intent ("price?".toList) = "price".toList
    ∧ (extract_query_details ("price?".toList) []).battery = none
    ∧ chatbot_reply none [] ("price?".toList) = msgModelMissing
    ∧ chatbot_reply (some (fun _ => Except.ok 0)) [] ("price?".toList) = msgProvideBoth := by
  refine ⟨by decide, by decide, ?_, ?_⟩
  · exact (C6_price_guards [] ("price?".toList) (fun _ => Except.ok 0) (by decide)).1
  · exact (C6_price_guards [] ("price?".toList) (fun _ => Except.ok 0) (by decide)).2
      (Or.inl (by decide))

/-- Claim C10: entity presence is tested by truthiness, so an extracted
zero is treated as missing: a zero battery or zero range yields the
price guidance message, and a zero budget yields the budget guidance
message instead of a filter. -/
theorem C10_zero_truthiness :
    (∀ (df : Table) (q : Str) (pm : PredModel), detect_intent q = "price".toList →
        (extract_query_details q df).battery = some 0 →
        chatbot_reply (some pm) df q = msgProvideBoth)
    ∧ (∀ (df : Table) (q : Str) (pm : PredModel), detect_intent q = "price".toList →
        (extract_query_details q df).range = some 0 →
        chatbot_reply (some pm) df q = msgProvideBoth)
    ∧ (∀ (mdl : Option PredModel) (df : Table) (q : Str),
        detect_intent q = "budget".toList →
        (extract_query_details q df).budget = some 0 →
        chatbot_reply mdl df q = msgBudgetAsk) := by
  refine ⟨fun df q pm h hb => ?_, fun df q pm h hr => ?_, fun mdl df q h hb => ?_⟩
  · have hf : (falsyQ (extract_query_details q df).battery
        || falsyQ (extract_query_details q df).range) = true := by
      simp [falsyQ, hb]
    simp [chatbot_reply, h, hf]
  · have hf : (falsyQ (extract_query_details q df).battery
        || falsyQ (extract_query_details q df).range) = true := by
      simp [falsyQ, hr]
    simp [chatbot_reply, h, hf]
  · have hne : ¬ detect_intent q = "price".toList := by rw [h]; decide
    simp [chatbot_reply, h, hne, falsyNat, hb]

/-- Witness for C10 at three concrete queries extracting a zero battery,
a zero range and a zero budget. -/
theorem C10_zero_truthiness_witness :
    (extract_query_details ("price for 0 kwh 300 km".toList) []).battery = some 0
    ∧ chatbot_reply (some (fun _ => Except.ok 0)) [] ("price for 0 kwh 300 km".toList)
        = msgProvideBoth
    ∧ (extract_query_details ("price 40kwh 0 km".toList) []).range = some 0
    ∧ chatbot_reply (some (fun _ => Except.ok 0)) [] ("price 40kwh 0 km".toList)
        = msgProvideBoth
    ∧ (extract_query_details ("under 0 lakh".toList) []).budget = some 0
    ∧ chatbot_reply none [] ("under 0 lakh".toList) = msgBudgetAsk := by
  refine ⟨by decide, C10_zero_truthiness.1 [] _ _ (by decide) (by decide), by decide,
    C10_zero_truthiness.2.1 [] _ _ (by decide) (by decide), by decide,
    C10_zero_truthiness.2.2 none [] _ (by decide) (by decide)⟩

/-- Claim C5 (amended): for the budget intent, no parsed budget always
yields the guidance message and no filter runs; a parsed nonzero budget
filters the table to the rows with price at most the budget, keeps the
existing row order (the index list is strictly increasing), reports the
no-match message when empty, and otherwise lists at most five matches
with the budget line format.  (The claim as frozen fails for a parsed
budget of zero, which the code treats as missing: C5_counterexample.) -/
theorem C5_amended_budget_intent (mdl : Option PredModel) (df : Table) (q : Str)
    (h : detect_intent q = "budget".toList) :
    ((extract_query_details q df).budget = none → chatbot_reply mdl df q = msgBudgetAsk)
    ∧ (∀ b, (extract_query_details q df).budget = some b → b ≠ 0 →
        (budgetRowIdxs df b = [] → chatbot_reply mdl df q = msgNoBudgetMatch)
        ∧ (budgetRowIdxs df b ≠ [] →
            chatbot_reply mdl df q
              = joinLines (((budgetRowIdxs df b).take 5).map (fmtBudgetLine df)))
        ∧ ((budgetRowIdxs df b).take 5).length ≤ 5
        ∧ List.Pairwise (· < ·) (budgetRowIdxs df b)
        ∧ (∀ i ∈ budgetRowIdxs df b, i < nRows df
            ∧ ∃ p, numAt? df ("price_inr") i = some p ∧ p ≤ (b : ℚ))
        ∧ (∀ i, i < nRows df → ∀ p, numAt? df ("price_inr") i = some p → p ≤ (b : ℚ) →
            i ∈ budgetRowIdxs df b)) := by
  have hne : ¬ detect_intent q = "price".toList := by rw [h]; decide
  constructor
  · intro hb
    simp [chatbot_reply, h, hne, falsyNat, hb]
  · intro b hb hbne
    have hf : falsyNat (extract_query_details q df).budget = false := by
      simp [falsyNat, hb, hbne]
    have hzf : falsyNat (some b) = false := by simp [falsyNat, hbne]
    refine ⟨fun he => ?_, fun hne2 => ?_, List.length_take_le 5 _, ?_, ?_, ?_⟩
    · simp [chatbot_reply, h, hne, hf, hb, he, hzf]
    · simp [chatbot_reply, h, hne, hf, hb, hne2, hzf]
    · exact List.Pairwise.sublist (List.filter_sublist _) (List.pairwise_lt_range _)
    · intro i hi
      rw [budgetRowIdxs, List.mem_filter, List.mem_range] at hi
      obtain ⟨hlt, hp⟩ := hi
      refine ⟨hlt, ?_⟩
      cases hnp : numAt? df ("price_inr") i with
      | none => rw [hnp] at hp; simp at hp
      | some p =>
        rw [hnp] at hp
        simp only [decide_eq_true_eq] at hp
        exact ⟨p, rfl, hp⟩
    · intro i hi p hp hle
      rw [budgetRowIdxs, List.mem_filter, List.mem_range]
      exact ⟨hi, by simp [hp, hle]⟩

/-- The two-row sample table of the specification end-to-end example,
used by the concrete witnesses. -/
def evTable : Table :=
  [("brand", ColData.strs ["Tesla".toList, "Tata".toList]),
   ("model", ColData.strs ["Model3".toList, "Nexon".toList]),
   ("battery_capacity_kwh", ColData.nums [60, 30]),
   ("range_km", ColData.nums [400, 250]),
   ("price_inr", ColData.nums [3500000, 1500000]),
   ("body_style", ColData.strs ["Sedan".toList, "SUV".toList])]

/-- Witness for the amended C5: a twenty lakh budget lists the one row
within budget, and a budget-intent query with no amount gets the
guidance message. -/
theorem C5_amended_budget_intent_witness :
    detect_intent ("evs under 20 lakh".toList) = "budget".toList
    ∧ (extract_query_details ("evs under 20 lakh".toList) evTable).budget = some 2000000
    ∧ budgetRowIdxs evTable 2000000 = [1]
    ∧ chatbot_reply none evTable ("evs under 20 lakh".toList)
        = joinLines (((budgetRowIdxs evTable 2000000).take 5).map (fmtBudgetLine evTable))
    ∧ (extract_query_details ("under what".toList) evTable).budget = none
    ∧ chatbot_reply none evTable ("under what".toList) = msgBudgetAsk := by
  refine ⟨by decide, by decide, by decide, ?_, by decide, ?_⟩
  · exact ((C5_amended_budget_intent none evTable ("evs under 20 lakh".toList)
      (by decide)).2 2000000 (by decide) (by decide)).2.1 (by decide)
  · exact (C5_amended_budget_intent none evTable ("under what".toList) (by decide)).1
      (by decide)

/- Lemmas for the prediction feature row (claim C4). -/

theorem build_row_names (b r : ℚ) :
    ∀ (df : Table) (row : PredRow), build_prediction_row df b r = Except.ok row →
      row.map Prod.fst = df.map Prod.fst := by
  intro df
  induction df with
  | nil =>
    intro row h
    simp only [build_prediction_row] at h
    injection h with h2
    subst h2
    rfl
  | cons c rest ih =>
    intro row h
    obtain ⟨name, cd⟩ := c
    simp only [build_prediction_row] at h
    cases hc : buildCell b r name cd with
    | error e => rw [hc] at h; exact absurd h (by simp)
    | ok cell =>
      rw [hc] at h
      cases hr : build_prediction_row rest b r with
      | error e => rw [hr] at h; exact absurd h (by simp)
      | ok row2 =>
        rw [hr] at h
        injection h with h2
        subst h2
        simp [ih row2 hr]

theorem build_row_mem (b r : ℚ) :
    ∀ (df : Table) (row : PredRow), build_prediction_row df b r = Except.ok row →
      ∀ name cd, (name, cd) ∈ df →
        ∃ c, buildCell b r name cd = Except.ok c ∧ (name, c) ∈ row := by
  intro df
  induction df with
  | nil => intro row h name cd hm; simp at hm
  | cons hd rest ih =>
    intro row h name cd hm
    obtain ⟨hname, hcd⟩ := hd
    simp only [build_prediction_row] at h
    cases hc : buildCell b r hname hcd with
    | error e => rw [hc] at h; exact absurd h (by simp)
    | ok cell =>
      rw [hc] at h
      cases hr : build_prediction_row rest b r with
      | error e => rw [hr] at h; exact absurd h (by simp)
      | ok row2 =>
        rw [hr] at h
        injection h with h2
        subst h2
        rcases List.mem_cons.mp hm with heq | htail
        · injection heq with e1 e2
          subst e1; subst e2
          exact ⟨cell, hc, List.mem_cons_self _ _⟩
        · obtain ⟨c, hc2, hm2⟩ := ih row2 hr name cd htail
          exact ⟨c, hc2, List.mem_cons_of_mem _ hm2⟩

theorem colMode_aux (xs : List Str) :
    ∀ (l : List Str) (acc : Option Str),
      (∀ b, acc = some b → b ∈ xs) →
      ∀ m, List.foldl (modeStep xs) acc l = some m →
        (∀ y ∈ l, y ∈ xs) →
        m ∈ xs ∧ (∀ y ∈ l, xs.count y ≤ xs.count m)
          ∧ (∀ b, acc = some b → xs.count b ≤ xs.count m) := by
  intro l
  induction l with
  | nil =>
    intro acc hacc m h _
    simp only [List.foldl_nil] at h
    refine ⟨hacc m h, by simp, fun b hb => ?_⟩
    rw [h] at hb
    injection hb with hb2
    subst hb2
    exact le_refl _
  | cons x l ih =>
    intro acc hacc m h hl
    simp only [List.foldl_cons] at h
    have hxin : x ∈ xs := hl x (List.mem_cons_self _ _)
    have hltail : ∀ y ∈ l, y ∈ xs := fun y hy => hl y (List.mem_cons_of_mem _ hy)
    cases hacccase : acc with
    | none =>
      subst hacccase
      simp only [modeStep] at h
      have hs := ih (some x) (fun b hb => by injection hb with hb2; subst hb2; exact hxin) m h hltail
      refine ⟨hs.1, fun y hy => ?_, fun b hb => by exact absurd hb (by simp)⟩
      rcases List.mem_cons.mp hy with rfl | hy2
      · exact hs.2.2 y rfl
      · exact hs.2.1 y hy2
    | some bprev =>
      subst hacccase
      simp only [modeStep] at h
      have hbin : bprev ∈ xs := hacc bprev rfl
      by_cases hcond : xs.count bprev < xs.count x ∨ (xs.count x = xs.count bprev ∧ strLt x bprev)
      · rw [if_pos hcond] at h
        have hs := ih (some x) (fun b hb => by injection hb with hb2; subst hb2; exact hxin) m h hltail
        have hxle : xs.count x ≤ xs.count m := hs.2.2 x rfl
        refine ⟨hs.1, fun y hy => ?_, fun b hb => ?_⟩
        · rcases List.mem_cons.mp hy with rfl | hy2
          · exact hxle
          · exact hs.2.1 y hy2
        · injection hb with hb2
          subst hb2
          rcases hcond with hlt | ⟨heq, _⟩
          · exact le_trans (le_of_lt hlt) hxle
          · exact le_trans (le_of_eq heq.symm) hxle
      · rw [if_neg hcond] at h
        have hs := ih (some bprev) (fun b hb => by injection hb with hb2; subst hb2; exact hbin)
          m h hltail
        have hble : xs.count bprev ≤ xs.count m := hs.2.2 bprev rfl
        push_neg at hcond
        have hxle : xs.count x ≤ xs.count bprev := hcond.1
        refine ⟨hs.1, fun y hy => ?_, fun b hb => ?_⟩
        · rcases List.mem_cons.mp hy with rfl | hy2
          · exact le_trans hxle hble
          · exact hs.2.1 y hy2
        · injection hb with hb2
          subst hb2
          exact hble

theorem colMode_spec (xs : List Str) (m : Str) (h : colMode xs = some m) :
    m ∈ xs ∧ ∀ y ∈ xs, xs.count y ≤ xs.count m := by
  rw [colMode] at h
  have hs := colMode_aux xs xs none (by simp) m h (fun y hy => hy)
  exact ⟨hs.1, hs.2.1⟩

/-- Column names of df.drop(columns=names): the original names in
order, with the dropped ones removed. -/
theorem dropColumns_names (names : List String) :
    ∀ df : Table, (dropColumns df names).map Prod.fst
      = (df.map Prod.fst).filter (fun n => !(names.contains n)) := by
  intro df
  induction df with
  | nil => rfl
  | cons c rest ih =>
    by_cases hc : c.1 ∈ names
    · simp [dropColumns, List.filter_cons, hc] at ih ⊢
      exact ih
    · simp [dropColumns, List.filter_cons, hc] at ih ⊢
      exact ih

/-- Claim C4: for the price intent with the model loaded and nonzero
battery and range extracted, the feature row has exactly the dataset
columns minus price_inr and source_url, in order; the battery and range
columns carry the extracted values; every other numeric column carries
its median over the whole table and every other categorical column a
most frequent value; on a successful prediction the reply is the
currency format (rounded to the nearest whole unit, comma grouped) and
on a failure the reply is the descriptive error string. -/
theorem C4_prediction_row (df : Table) (q : Str) (pm : PredModel) (bq rq : ℚ)
    (h : detect_intent q = "price".toList)
    (hbat : (extract_query_details q df).battery = some bq) (hbne : bq ≠ 0)
    (hrng : (extract_query_details q df).range = some rq) (hrne : rq ≠ 0) :
    ((dropColumns df ["price_inr", "source_url"]).map Prod.fst
        = (df.map Prod.fst).filter (fun n => !(["price_inr", "source_url"].contains n)))
    ∧ (∀ row, build_prediction_row (dropColumns df ["price_inr", "source_url"]) bq rq
          = Except.ok row →
        row.map Prod.fst = (dropColumns df ["price_inr", "source_url"]).map Prod.fst
        ∧ (∀ cd, ("battery_capacity_kwh", cd) ∈ dropColumns df ["price_inr", "source_url"] →
            ("battery_capacity_kwh", Cell.num bq) ∈ row)
        ∧ (∀ cd, ("range_km", cd) ∈ dropColumns df ["price_inr", "source_url"] →
            ("range_km", Cell.num rq) ∈ row)
        ∧ (∀ n xs, n ≠ "battery_capacity_kwh" → n ≠ "range_km" →
            (n, ColData.nums xs) ∈ dropColumns df ["price_inr", "source_url"] →
            (n, colMedian xs) ∈ row)
        ∧ (∀ n xs, n ≠ "battery_capacity_kwh" → n ≠ "range_km" →
            (n, ColData.strs xs) ∈ dropColumns df ["price_inr", "source_url"] →
            ∃ m, colMode xs = some m ∧ (n, Cell.strv m) ∈ row ∧ m ∈ xs
              ∧ ∀ y ∈ xs, xs.count y ≤ xs.count m)
        ∧ (∀ p, pm row = Except.ok p →
            chatbot_reply (some pm) df q
              = "Estimated Price: **₹".toList ++ moneyFmt p ++ "**".toList)
        ∧ (∀ e, pm row = Except.error e →
            chatbot_reply (some pm) df q = "Prediction failed: ".toList ++ e.toList))
    ∧ (∀ e, build_prediction_row (dropColumns df ["price_inr", "source_url"]) bq rq
          = Except.error e →
        chatbot_reply (some pm) df q = "Prediction failed: ".toList ++ e.toList) := by
  have hf : (falsyQ (extract_query_details q df).battery
      || falsyQ (extract_query_details q df).range) = false := by
    simp [falsyQ, hbat, hrng, hbne, hrne]
  have hfb : falsyQ (some bq) = false := by simp [falsyQ, hbne]
  have hfr : falsyQ (some rq) = false := by simp [falsyQ, hrne]
  refine ⟨?_, fun row hrow => ?_, fun e herr => ?_⟩
  · exact dropColumns_names ["price_inr", "source_url"] df
  · refine ⟨build_row_names bq rq _ row hrow, fun cd hm => ?_, fun cd hm => ?_,
      fun n xs hn1 hn2 hm => ?_, fun n xs hn1 hn2 hm => ?_, fun p hp => ?_, fun e he => ?_⟩
    · obtain ⟨c, hc, hmem⟩ := build_row_mem bq rq _ row hrow _ cd hm
      rw [buildCell.eq_def, if_pos rfl] at hc
      injection hc with hc2
      subst hc2
      exact hmem
    · obtain ⟨c, hc, hmem⟩ := build_row_mem bq rq _ row hrow _ cd hm
      rw [buildCell.eq_def, if_neg (by decide), if_pos rfl] at hc
      injection hc with hc2
      subst hc2
      exact hmem
    · obtain ⟨c, hc, hmem⟩ := build_row_mem bq rq _ row hrow _ _ hm
      rw [buildCell.eq_def, if_neg hn1, if_neg hn2] at hc
      injection hc with hc2
      subst hc2
      exact hmem
    · obtain ⟨c, hc, hmem⟩ := build_row_mem bq rq _ row hrow _ _ hm
      rw [buildCell.eq_def, if_neg hn1, if_neg hn2] at hc
      have hc2 : (match colMode xs with
          | some m => Except.ok (Cell.strv m)
          | none =>
            Except.error ("index 0 is out of bounds for axis 0 with size 0")) = Except.ok c := hc
      cases hmode : colMode xs with
      | none => rw [hmode] at hc2; exact absurd hc2 (by simp)
      | some m =>
        rw [hmode] at hc2
        injection hc2 with hc3
        subst hc3
        obtain ⟨hmm, hcnt⟩ := colMode_spec xs m hmode
        exact ⟨m, rfl, hmem, hmm, hcnt⟩
    · simp [chatbot_reply, h, hf, hbat, hrng, hrow, hp, hfb, hfr]
    · simp [chatbot_reply, h, hf, hbat, hrng, hrow, he, hfb, hfr]
  · simp [chatbot_reply, h, hf, hbat, hrng, herr, hfb, hfr]

/-- Witness for C4 on the two-row sample table: the built row and the
formatted reply at a concrete price query. -/
theorem C4_prediction_row_witness :
    detect_intent ("price 40 kwh 300 km".toList) = "price".toList
    ∧ (extract_query_details ("price 40 kwh 300 km".toList) evTable).battery = some 40
    ∧ (extract_query_details ("price 40 kwh 300 km".toList) evTable).range = some 300
    ∧ build_prediction_row (dropColumns evTable ["price_inr", "source_url"]) 40 300
        = Except.ok [("brand", Cell.strv ("Tata".toList)), ("model", Cell.strv ("Model3".toList)),
            ("battery_capacity_kwh", Cell.num 40), ("range_km", Cell.num 300),
            ("body_style", Cell.strv ("SUV".toList))]
    ∧ chatbot_reply (some (fun _ => Except.ok 2512346)) evTable ("price 40 kwh 300 km".toList)
        = "Estimated Price: **₹".toList ++ moneyFmt 2512346 ++ "**".toList := by
  refine ⟨by decide, by decide, by decide, rfl, ?_⟩
  exact ((C4_prediction_row evTable ("price 40 kwh 300 km".toList) (fun _ => Except.ok 2512346) 40 300
    (by decide) (by decide) (by decide) (by decide) (by decide)).2.1
    [("brand", Cell.strv ("Tata".toList)), ("model", Cell.strv ("Model3".toList)),
     ("battery_capacity_kwh", Cell.num 40), ("range_km", Cell.num 300),
     ("body_style", Cell.strv ("SUV".toList))] rfl).2.2.2.2.2.1 2512346 rfl

/- Lemmas about the fuzzy matcher result and list indexing (claims C9, C1, C2). -/

theorem pickBest_mem (w : Str) :
    ∀ (l : List Str) (acc : Option Str) (s : Str), pickBest w l acc = some s →
      s ∈ l ∨ acc = some s := by
  intro l
  induction l with
  | nil => intro acc s h; right; simpa [pickBest] using h
  | cons x xs ih =>
    intro acc s h
    rw [pickBest.eq_def] at h
    cases hacc : acc with
    | none =>
      rw [hacc] at h
      rcases ih (some x) s h with hin | heq
      · exact Or.inl (List.mem_cons_of_mem _ hin)
      · injection heq with h2; subst h2; exact Or.inl (List.mem_cons_self _ _)
    | some b =>
      rw [hacc] at h
      have h2 : pickBest w xs (if betterCand x b w then some x else some b) = some s := h
      by_cases hbc : betterCand x b w = true
      · rw [if_pos hbc] at h2
        rcases ih (some x) s h2 with hin | heq
        · exact Or.inl (List.mem_cons_of_mem _ hin)
        · injection heq with h3; subst h3; exact Or.inl (List.mem_cons_self _ _)
      · rw [if_neg hbc] at h2
        rcases ih (some b) s h2 with hin | heq
        · exact Or.inl (List.mem_cons_of_mem _ hin)
        · injection heq with h3; subst h3; right; rfl

theorem get_close_matches1_mem (w : Str) (cands : List Str) (s : Str)
    (h : get_close_matches1 w cands = some s) : s ∈ cands ∧ passesCutoff w s = true := by
  rw [get_close_matches1] at h
  rcases pickBest_mem w _ none s h with hin | heq
  · rw [List.mem_filter] at hin
    exact ⟨hin.1, hin.2⟩
  · exact absurd heq (by simp)

theorem indexOfStr_lt_length (s : Str) :
    ∀ l : List Str, s ∈ l → indexOfStr l s < l.length := by
  intro l
  induction l with
  | nil => intro h; simp at h
  | cons x xs ih =>
    intro h
    rw [indexOfStr]
    by_cases hx : x == s
    · simp [hx]
    · rw [if_neg hx]
      have hs : s ∈ xs := by
        rcases List.mem_cons.mp h with rfl | h2
        · exact absurd (beq_self_eq_true s) (by simp at hx)
        · exact h2
      simpa [List.length_cons] using Nat.succ_lt_succ (ih hs)

theorem indexOfStr_getD (s : Str) :
    ∀ l : List Str, s ∈ l → l.getD (indexOfStr l s) [] = s := by
  intro l
  induction l with
  | nil => intro h; simp at h
  | cons x xs ih =>
    intro h
    rw [indexOfStr]
    by_cases hx : x == s
    · rw [if_pos hx]
      simpa using eq_of_beq hx
    · rw [if_neg hx]
      have hs : s ∈ xs := by
        rcases List.mem_cons.mp h with rfl | h2
        · exact absurd (beq_self_eq_true s) (by simp at hx)
        · exact h2
      simpa using ih hs

theorem headD_ne (l1 l2 : Str) (h : l1.headD ' ' ≠ l2.headD ' ') : l1 ≠ l2 :=
  fun he => h (he ▸ rfl)

theorem joinLines_head (c : Char) (t : Str) (xs : List Str) :
    (joinLines ((c :: t) :: xs)).headD ' ' = c := by
  cases xs with
  | nil => rfl
  | cons y ys => rfl

/-- Two lists with different head characters differ. -/
theorem cons_ne_of_head (c d : Char) (t1 t2 : Str) (h : c ≠ d) : (c :: t1) ≠ (d :: t2) := by
  intro he
  injection he with h1 _
  exact h h1

/-- A prediction-failure reply never equals the not-found message. -/
theorem predFailed_ne_msg (e : Str) :
    "Prediction failed: ".toList ++ e ≠ msgNoModelFound :=
  cons_ne_of_head 'P' 'M' _ _ (by decide)

/-- An estimated-price reply never equals the not-found message. -/
theorem estimated_ne_msg (m : Str) :
    "Estimated Price: **₹".toList ++ m ≠ msgNoModelFound :=
  cons_ne_of_head 'E' 'M' _ _ (by decide)

/-- A budget listing never equals the not-found message. -/
theorem joinBudget_ne_msg (df : Table) (i : Nat) (xs : List Str) :
    joinLines (fmtBudgetLine df i :: xs) ≠ msgNoModelFound := by
  cases xs with
  | nil => exact cons_ne_of_head '-' 'M' _ _ (by decide)
  | cons y ys => exact cons_ne_of_head '-' 'M' _ _ (by decide)

/-- A recommend listing never equals the not-found message. -/
theorem joinRec_ne_msg (df : Table) (i : Nat) (xs : List Str) :
    joinLines (fmtRecLine df i :: xs) ≠ msgNoModelFound := by
  cases xs with
  | nil => exact cons_ne_of_head '-' 'M' _ _ (by decide)
  | cons y ys => exact cons_ne_of_head '-' 'M' _ _ (by decide)

/-- An info summary never equals the not-found message. -/
theorem fmtInfo_ne_msg (df : Table) (i : Nat) : fmtInfo df i ≠ msgNoModelFound :=
  cons_ne_of_head '#' 'M' _ _ (by decide)

/-- Reading a categorical column through its lookup hypothesis. -/
theorem strColD_of_lookup (df : Table) (name : String) (xs : List Str)
    (h : lookupCol df name = some (ColData.strs xs)) : strColD df name = xs := by
  rw [strColD, h]

/-- The candidate list is as long as the shorter of the two columns. -/
theorem combinedOf_length (df : Table) :
    (combinedOf df).length
      = min (strColD df ("brand")).length (strColD df ("model")).length := by
  simp [combinedOf]

/-- Claim C9: on a table whose brand and model columns are categorical
and aligned with the row count, extract_query_details sets brand and
model together or not at all, and the reply of chatbot_reply is never
the not-found message: whenever the info branch has a truthy model, the
exact brand-and-model lookup contains the fuzzily matched row itself,
and every other branch produces a reply of a different shape. -/
theorem C9_brand_model_consistency (df : Table) (q : Str) (bs ms : List Str)
    (hb : lookupCol df ("brand") = some (ColData.strs bs))
    (hm : lookupCol df ("model") = some (ColData.strs ms))
    (hlb : bs.length = nRows df) (hlm : ms.length = nRows df) :
    ((extract_query_details q df).brand = none ↔ (extract_query_details q df).model = none)
    ∧ (∀ mdl : Option PredModel, chatbot_reply mdl df q ≠ msgNoModelFound) := by
  have hbs := strColD_of_lookup df ("brand") bs hb
  have hms := strColD_of_lookup df ("model") ms hm
  constructor
  · cases hg : get_close_matches1 (lowerStr q) (combinedOf df) with
    | none =>
      have he := extract_brand_of_none q df hg
      rw [he.1, he.2]
    | some s =>
      have he := extract_brand_of_some q df s hg
      rw [he.1, he.2]
      simp
  · intro mdl
    by_cases h1 : detect_intent q = "price".toList
    · cases mdl with
      | none => simp [chatbot_reply, h1, msgModelMissing, msgNoModelFound]
      | some pm =>
        by_cases h2 : (falsyQ (extract_query_details q df).battery
            || falsyQ (extract_query_details q df).range) = true
        · simp [chatbot_reply, h1, h2, msgProvideBoth, msgNoModelFound]
        · have h2f : (falsyQ (extract_query_details q df).battery
              || falsyQ (extract_query_details q df).range) = false :=
            Bool.eq_false_iff.mpr h2
          cases hb2 : build_prediction_row (dropColumns df ["price_inr", "source_url"])
              ((extract_query_details q df).battery.getD 0)
              ((extract_query_details q df).range.getD 0) with
          | error e =>
            have hshape : chatbot_reply (some pm) df q
                = "Prediction failed: ".toList ++ e.toList := by
              simp [chatbot_reply, h1, h2f, hb2]
            rw [hshape]
            exact predFailed_ne_msg e.toList
          | ok row =>
            cases hp : pm row with
            | ok p =>
              have hshape : chatbot_reply (some pm) df q
                  = "Estimated Price: **₹".toList ++ moneyFmt p ++ "**".toList := by
                simp [chatbot_reply, h1, h2f, hb2, hp]
              rw [hshape, List.append_assoc]
              exact estimated_ne_msg _
            | error e =>
              have hshape : chatbot_reply (some pm) df q
                  = "Prediction failed: ".toList ++ e.toList := by
                simp [chatbot_reply, h1, h2f, hb2, hp]
              rw [hshape]
              exact predFailed_ne_msg e.toList
    · by_cases h3 : detect_intent q = "budget".toList
      · by_cases h4 : falsyNat (extract_query_details q df).budget = true
        · simp [chatbot_reply, h1, h3, h4, msgBudgetAsk, msgNoModelFound]
        · have h4f : falsyNat (extract_query_details q df).budget = false :=
            Bool.eq_false_iff.mpr h4
          cases hidx : budgetRowIdxs df ((extract_query_details q df).budget.getD 0) with
          | nil => simp [chatbot_reply, h1, h3, h4f, hidx, msgNoBudgetMatch, msgNoModelFound]
          | cons i rest =>
            have hshape : chatbot_reply mdl df q
                = joinLines (fmtBudgetLine df i :: ((rest.take 4).map (fmtBudgetLine df))) := by
              simp [chatbot_reply, h3, h4f, hidx]
            rw [hshape]
            exact joinBudget_ne_msg df i _
      · by_cases h6 : detect_intent q = "recommend".toList
        · cases hrec : recommendIdxs df with
          | nil =>
            have hshape : chatbot_reply mdl df q = joinLines [] := by
              simp [chatbot_reply, h6, hrec]
            rw [hshape]
            simp [joinLines, msgNoModelFound]
          | cons i rest =>
            have hshape : chatbot_reply mdl df q
                = joinLines (fmtRecLine df i :: (rest.map (fmtRecLine df))) := by
              simp [chatbot_reply, h6, hrec]
            rw [hshape]
            exact joinRec_ne_msg df i _
        · by_cases h7 : detect_intent q = "info".toList
          · by_cases h8 : falsyStr (extract_query_details q df).model = true
            · simp [chatbot_reply, h7, h8, msgNoModelIdent, msgNoModelFound]
            · cases hg : get_close_matches1 (lowerStr q) (combinedOf df) with
              | none =>
                have he := extract_brand_of_none q df hg
                rw [he.2] at h8
                exact absurd rfl h8
              | some s =>
                have he := extract_brand_of_some q df s hg
                have hmem := (get_close_matches1_mem _ _ _ hg).1
                have hidxlt : indexOfStr (combinedOf df) s < (combinedOf df).length :=
                  indexOfStr_lt_length s _ hmem
                have hcl : (combinedOf df).length = min bs.length ms.length := by
                  rw [combinedOf_length, hbs, hms]
                have hidxn : indexOfStr (combinedOf df) s < nRows df := by
                  rw [hcl] at hidxlt
                  exact lt_of_lt_of_le hidxlt (by rw [hlb, hlm]; exact min_le_left _ _)
                have hinfo : indexOfStr (combinedOf df) s
                    ∈ infoRowIdxs df ((extract_query_details q df).brand.getD [])
                      ((extract_query_details q df).model.getD []) := by
                  rw [infoRowIdxs, List.mem_filter, List.mem_range]
                  refine ⟨hidxn, ?_⟩
                  rw [he.1, he.2]
                  simp [strAt, hbs, hms]
                cases hidx2 : infoRowIdxs df ((extract_query_details q df).brand.getD [])
                    ((extract_query_details q df).model.getD []) with
                | nil => rw [hidx2] at hinfo; simp at hinfo
                | cons i rest =>
                  have h8f : falsyStr (extract_query_details q df).model = false :=
                    Bool.eq_false_iff.mpr h8
                  have hshape : chatbot_reply mdl df q = fmtInfo df i := by
                    simp [chatbot_reply, h7, h8f, hidx2]
                  rw [hshape]
                  exact fmtInfo_ne_msg df i
          · have hn1 := h1
            have hn3 := h3
            have hn6 := h6
            have hn7 := h7
            simp at hn1 hn3 hn6 hn7
            simp [chatbot_reply, hn1, hn3, hn6, hn7, msgUnknown, msgNoModelFound]

/-- Witness for C9 on the two-row sample table at an info query. -/
theorem C9_brand_model_consistency_witness :
    lookupCol evTable ("brand") = some (ColData.strs ["Tesla".toList, "Tata".toList])
    ∧ lookupCol evTable ("model") = some (ColData.strs ["Model3".toList, "Nexon".toList])
    ∧ nRows evTable = 2
    ∧ chatbot_reply none evTable ("tell me about tata nexon".toList) ≠ msgNoModelFound := by
  refine ⟨by decide, by decide, by decide, ?_⟩
  exact (C9_brand_model_consistency evTable ("tell me about tata nexon".toList)
    ["Tesla".toList, "Tata".toList] ["Model3".toList, "Nexon".toList]
    (by decide) (by decide) (by decide) (by decide)).2 none

/- Lemmas about SequenceMatcher for the amended claim C1. -/

/-- The best block size never decreases along one row. -/
theorem flmRow_best_mono (i blo bhi : Nat) (old : Nat → Nat) :
    ∀ (js : List Nat) (news : Nat → Nat) (best : FlmBest),
      best.bestsize ≤ ((flmRow i blo bhi old js news best).2).bestsize := by
  intro js
  induction js with
  | nil => intro news best; exact le_refl _
  | cons j js ih =>
    intro news best
    simp only [flmRow]
    by_cases h1 : j < blo
    · rw [if_pos h1]; exact ih news best
    · rw [if_neg h1]
      by_cases h2 : bhi ≤ j
      · rw [if_pos h2]
      · rw [if_neg h2]
        refine le_trans ?_ (ih _ _)
        by_cases h3 : best.bestsize < (if j = 0 then 0 else old (j - 1)) + 1
        · rw [if_pos h3]; exact le_of_lt h3
        · rw [if_neg h3]

/-- A j2len entry not named in the position list is untouched. -/
theorem flmRow_preserve (i blo bhi : Nat) (old : Nat → Nat) :
    ∀ (js : List Nat) (news : Nat → Nat) (best : FlmBest) (jstar : Nat),
      (∀ j ∈ js, j ≠ jstar) →
      (flmRow i blo bhi old js news best).1 jstar = news jstar := by
  intro js
  induction js with
  | nil => intro news best jstar _; rfl
  | cons j js ih =>
    intro news best jstar hne
    simp only [flmRow]
    have hj : j ≠ jstar := hne j (List.mem_cons_self _ _)
    have htail : ∀ j2 ∈ js, j2 ≠ jstar := fun j2 h2 => hne j2 (List.mem_cons_of_mem _ h2)
    by_cases h1 : j < blo
    · rw [if_pos h1]; exact ih news best jstar htail
    · rw [if_neg h1]
      by_cases h2 : bhi ≤ j
      · rw [if_pos h2]
      · rw [if_neg h2]
        rw [ih _ _ jstar htail]
        simp [Ne.symm hj]

/-- On a strictly ascending position list containing jstar inside the
window, the row writes the chain value at jstar and the best size
covers it. -/
theorem flmRow_value (i blo bhi : Nat) (old : Nat → Nat) :
    ∀ (js : List Nat) (news : Nat → Nat) (best : FlmBest) (jstar : Nat),
      List.Pairwise (· < ·) js → jstar ∈ js → blo ≤ jstar → jstar < bhi →
      ((flmRow i blo bhi old js news best).1 jstar
          = (if jstar = 0 then 0 else old (jstar - 1)) + 1)
      ∧ (flmRow i blo bhi old js news best).1 jstar
          ≤ ((flmRow i blo bhi old js news best).2).bestsize := by
  intro js
  induction js with
  | nil => intro news best jstar _ hmem; simp at hmem
  | cons j js ih =>
    intro news best jstar hpw hmem hblo hbhi
    have hpwt := List.pairwise_cons.mp hpw
    rcases List.mem_cons.mp hmem with rfl | hmem2
    · -- jstar is the head
      simp only [flmRow]
      rw [if_neg (by omega), if_neg (by omega)]
      have hgt : ∀ j2 ∈ js, j2 ≠ jstar := fun j2 h2 => Nat.ne_of_gt (hpwt.1 j2 h2)
      constructor
      · rw [flmRow_preserve i blo bhi old js _ _ jstar hgt]
        simp
      · rw [flmRow_preserve i blo bhi old js _ _ jstar hgt]
        refine le_trans ?_ (flmRow_best_mono i blo bhi old js _ _)
        by_cases h3 : best.bestsize < (if jstar = 0 then 0 else old (jstar - 1)) + 1
        · simp [h3]
        · simp [h3]; omega
    · -- jstar in the tail
      simp only [flmRow]
      by_cases h1 : j < blo
      · rw [if_pos h1]; exact ih news best jstar hpwt.2 hmem2 hblo hbhi
      · rw [if_neg h1]
        by_cases h2 : bhi ≤ j
        · exact absurd (lt_trans (hpwt.1 jstar hmem2) hbhi) (by omega)
        · rw [if_neg h2]
          exact ih _ _ jstar hpwt.2 hmem2 hblo hbhi

/-- The best block size never decreases across rows. -/
theorem flmRows_mono (b2j : Char → List Nat) (a : Str) (blo bhi : Nat) :
    ∀ (cnt i : Nat) (old : Nat → Nat) (best : FlmBest),
      best.bestsize ≤ (flmRows b2j a blo bhi i cnt old best).bestsize := by
  intro cnt
  induction cnt with
  | zero => intro i old best; exact le_refl _
  | succ c ih =>
    intro i old best
    simp only [flmRows]
    exact le_trans (flmRow_best_mono i blo bhi old _ _ _) (ih (i + 1) _ _)

/-- The diagonal chain along an occurrence of the candidate inside the
word forces the final best size to at least the candidate length. -/
theorem flmRows_chain (b2j : Char → List Nat) (a : Str) (blo bhi j0 la : Nat)
    (hb2j : ∀ s, s < la →
      (j0 + s) ∈ b2j (a.getD s ' ') ∧ List.Pairwise (· < ·) (b2j (a.getD s ' ')))
    (hblo : blo ≤ j0) (hbhi : j0 + la ≤ bhi) :
    ∀ (cnt r : Nat) (old : Nat → Nat) (best : FlmBest), r + cnt = la → 1 ≤ cnt →
      (r = 0 ∨ r ≤ old (j0 + r - 1)) →
      la ≤ (flmRows b2j a blo bhi r cnt old best).bestsize := by
  intro cnt
  induction cnt with
  | zero => intro r old best _ hge; omega
  | succ c ih =>
    intro r old best hsum _ hold
    simp only [flmRows]
    obtain ⟨hmem, hpw⟩ := hb2j r (by omega)
    have hv := flmRow_value r blo bhi old (b2j (a.getD r ' ')) (fun _ => 0) best (j0 + r)
      hpw hmem (by omega) (by omega)
    have hval : r + 1 ≤ (flmRow r blo bhi old (b2j (a.getD r ' ')) (fun _ => 0) best).1 (j0 + r) := by
      rw [hv.1]
      by_cases hz : j0 + r = 0
      · have : r = 0 := by omega
        omega
      · rcases hold with hr0 | holdv
        · omega
        · rw [if_neg hz]
          omega
    cases c with
    | zero =>
      have hla : r + 1 = la := by omega
      simp only [flmRows]
      calc la = r + 1 := hla.symm
        _ ≤ _ := le_trans hval hv.2
    | succ c2 =>
      refine ih (r + 1) _ _ (by omega) (by omega) (Or.inr ?_)
      have : j0 + (r + 1) - 1 = j0 + r := by omega
      rw [this]
      omega

/-- The left extension loop never shrinks the block. -/
theorem extLeft_mono (a b : Str) (alo blo : Nat) :
    ∀ (fuel : Nat) (best : FlmBest),
      best.bestsize ≤ (extLeft a b alo blo fuel best).bestsize := by
  intro fuel
  induction fuel with
  | zero => intro best; exact le_refl _
  | succ f ih =>
    intro best
    rw [extLeft]
    split
    · exact le_trans (Nat.le_succ _)
        (ih ⟨best.besti - 1, best.bestj - 1, best.bestsize + 1⟩)
    · exact le_refl _

/-- The right extension loop never shrinks the block. -/
theorem extRight_mono (a b : Str) (ahi bhi : Nat) :
    ∀ (fuel : Nat) (best : FlmBest),
      best.bestsize ≤ (extRight a b ahi bhi fuel best).bestsize := by
  intro fuel
  induction fuel with
  | zero => intro best; exact le_refl _
  | succ f ih =>
    intro best
    rw [extRight]
    split
    · exact le_trans (Nat.le_succ _)
        (ih ⟨best.besti, best.bestj, best.bestsize + 1⟩)
    · exact le_refl _

/-- With autojunk off (word shorter than 200), every occurrence position
is listed in b2j. -/
theorem b2jOf_mem_of_occ (text : Str) (hlen : text.length < 200) (c : Char) (j : Nat)
    (hj : j < text.length) (hc : text.getD j ' ' = c) : j ∈ b2jOf text c := by
  rw [b2jOf]
  rw [if_neg (by omega)]
  rw [List.mem_filter, List.mem_range]
  exact ⟨hj, by simp only [beq_iff_eq]; exact hc⟩

/-- The position lists of b2j are strictly ascending. -/
theorem b2jOf_pairwise (text : Str) (c : Char) : List.Pairwise (· < ·) (b2jOf text c) := by
  rw [b2jOf]
  split
  · exact List.Pairwise.nil
  · exact List.Pairwise.sublist (List.filter_sublist _) (List.pairwise_lt_range _)

/-- A candidate occurring verbatim inside a short word matches at least
its own length. -/
theorem matchTotal_ge_of_substring (cand text : Str) (hlen : text.length < 200)
    (j0 : Nat) (hocc : j0 + cand.length ≤ text.length)
    (hch : ∀ r, r < cand.length → text.getD (j0 + r) ' ' = cand.getD r ' ') :
    cand.length ≤ matchTotal cand text := by
  by_cases hla : cand.length = 0
  · omega
  · have hchain := flmRows_chain (b2jOf text) cand 0 text.length j0 cand.length
      (fun s hs => ⟨b2jOf_mem_of_occ text hlen _ (j0 + s) (by omega) (hch s hs),
        b2jOf_pairwise text _⟩)
      (Nat.zero_le _) hocc cand.length 0 (fun _ => 0) ⟨0, 0, 0⟩ (by omega) (by omega)
      (Or.inl rfl)
    rw [matchTotal, matchTotalAux]
    have hge : cand.length ≤ (find_longest_match cand text (b2jOf text)
        0 cand.length 0 text.length).bestsize := by
      rw [find_longest_match]
      refine le_trans (le_trans ?_ (extLeft_mono _ _ _ _ _ _)) (extRight_mono _ _ _ _ _ _)
      simpa using hchain
    rw [if_neg (by omega)]
    omega

/-- An in-range getD value is a member. -/
theorem getD_mem_of_lt (l : Str) (j : Nat) (hj : j < l.length) : l.getD j ' ' ∈ l := by
  rw [List.getD_eq_getElem l ' ' hj]
  exact List.getElem_mem hj

/-- A character absent from the word has no b2j positions. -/
theorem b2jOf_nil_of_not_mem (b : Str) (c : Char) (h : c ∉ b) : b2jOf b c = [] := by
  rw [b2jOf]
  split
  · rfl
  · refine List.filter_eq_nil_iff.mpr (fun j hj => ?_)
    rw [List.mem_range] at hj
    simp only [beq_iff_eq]
    intro he
    exact h (he ▸ getD_mem_of_lt b j hj)

/-- With no position lists at all, the rows leave the best block as it
was. -/
theorem flmRows_nocommon (b2j : Char → List Nat) (a : Str) (blo bhi : Nat) :
    ∀ (cnt i : Nat) (old : Nat → Nat) (best : FlmBest),
      (∀ s, i ≤ s → s < i + cnt → b2j (a.getD s ' ') = []) →
      flmRows b2j a blo bhi i cnt old best = best := by
  intro cnt
  induction cnt with
  | zero => intro i old best _; rfl
  | succ c ih =>
    intro i old best hnil
    simp only [flmRows]
    rw [hnil i (le_refl _) (by omega)]
    exact ih (i + 1) _ _ (fun s hs1 hs2 => hnil s (by omega) (by omega))

/-- With no character in common, find_longest_match returns the empty
block. -/
theorem flm_zero (a b : Str) (h : ∀ c ∈ a, c ∉ b) (alo ahi blo bhi : Nat)
    (hahi : ahi ≤ a.length) (hbhi : bhi ≤ b.length) :
    find_longest_match a b (b2jOf b) alo ahi blo bhi = ⟨alo, blo, 0⟩ := by
  rw [find_longest_match]
  have hrows : flmRows (b2jOf b) a blo bhi alo (ahi - alo) (fun _ => 0) ⟨alo, blo, 0⟩
      = ⟨alo, blo, 0⟩ := by
    refine flmRows_nocommon (b2jOf b) a blo bhi (ahi - alo) alo _ _ (fun s hs1 hs2 => ?_)
    exact b2jOf_nil_of_not_mem b _ (h _ (getD_mem_of_lt a s (by omega)))
  rw [hrows]
  have hleft : extLeft a b alo blo (FlmBest.besti ⟨alo, blo, 0⟩) ⟨alo, blo, 0⟩
      = ⟨alo, blo, 0⟩ := by
    cases halo : FlmBest.besti ⟨alo, blo, 0⟩ with
    | zero => rfl
    | succ f =>
      rw [extLeft]
      rw [if_neg (by simp)]
  rw [hleft]
  cases hfuel : ahi - (FlmBest.besti ⟨alo, blo, 0⟩ + FlmBest.bestsize ⟨alo, blo, 0⟩) with
  | zero => rfl
  | succ f =>
    rw [extRight]
    rw [if_neg ?_]
    intro ⟨h1, h2, h3⟩
    simp only at h1 h2 h3
    exact h (a.getD alo ' ') (getD_mem_of_lt a alo (by omega))
      (h3 ▸ getD_mem_of_lt b blo (by simp at h2; omega))

/-- With no character in common, the total match is zero. -/
theorem matchTotal_zero (a b : Str) (h : ∀ c ∈ a, c ∉ b) : matchTotal a b = 0 := by
  rw [matchTotal, matchTotalAux]
  rw [flm_zero a b h 0 a.length 0 b.length (le_refl _) (le_refl _)]
  rfl

/-- Pointwise characterization of startsWithStr. -/
theorem startsWithStr_spec :
    ∀ (n t : Str), startsWithStr n t = true →
      n.length ≤ t.length ∧ ∀ r, r < n.length → t.getD r ' ' = n.getD r ' ' := by
  intro n
  induction n with
  | nil => intro t _; exact ⟨Nat.zero_le _, fun r hr => absurd hr (by simp)⟩
  | cons c cs ih =>
    intro t h
    cases t with
    | nil => simp [startsWithStr] at h
    | cons d ds =>
      rw [startsWithStr] at h
      rw [Bool.and_eq_true] at h
      obtain ⟨h1, h2⟩ := h
      have hcd : c = d := eq_of_beq h1
      have ht := ih ds h2
      refine ⟨by simpa using Nat.succ_le_succ ht.1, fun r hr => ?_⟩
      cases r with
      | zero => simp [hcd]
      | succ r2 =>
        rw [List.getD_cons_succ, List.getD_cons_succ]
        exact ht.2 r2 (by simpa using hr)

/-- A substring occurs at some offset, pointwise. -/
theorem isSubstr_spec (n h : Str) (hs : isSubstr n h = true) :
    ∃ i, i + n.length ≤ h.length ∧ ∀ r, r < n.length → h.getD (i + r) ' ' = n.getD r ' ' := by
  rw [isSubstr] at hs
  obtain ⟨i, hi, hstart⟩ := List.any_eq_true.mp hs
  rw [List.mem_range] at hi
  obtain ⟨hlen2, hpt⟩ := startsWithStr_spec n (h.drop i) hstart
  refine ⟨i, ?_, fun r hr => ?_⟩
  · have hdl := List.length_drop i h
    omega
  · have hv := hpt r hr
    rw [← hv]
    rw [List.getD_eq_getElem?_getD, List.getD_eq_getElem?_getD, List.getElem?_drop]

/-- The nlargest accumulator never loses a seeded candidate. -/
theorem pickBest_isSome (w : Str) :
    ∀ (l : List Str) (b : Str), (pickBest w l (some b)).isSome = true := by
  intro l
  induction l with
  | nil => intro b; rfl
  | cons x xs ih =>
    intro b
    show (pickBest w xs (if betterCand x b w then some x else some b)).isSome = true
    by_cases hc : betterCand x b w = true
    · rw [if_pos hc]; exact ih x
    · rw [if_neg hc]; exact ih b

/-- Some candidate above the cutoff forces a match. -/
theorem gcm_isSome_of_passes (w : Str) (cands : List Str) (x : Str) (hx : x ∈ cands)
    (hp : passesCutoff w x = true) : ∃ s, get_close_matches1 w cands = some s := by
  have hxf : x ∈ cands.filter (passesCutoff w) := List.mem_filter.mpr ⟨hx, hp⟩
  rw [get_close_matches1]
  cases hf : cands.filter (passesCutoff w) with
  | nil => rw [hf] at hxf; simp at hxf
  | cons y ys =>
    show ∃ s, pickBest w ys (some y) = some s
    obtain ⟨s, hs⟩ := Option.isSome_iff_exists.mp (pickBest_isSome w ys y)
    exact ⟨s, hs⟩

/-- With every candidate below the cutoff there is no match. -/
theorem gcm_none_of_allfail (w : Str) (cands : List Str)
    (h : ∀ x ∈ cands, passesCutoff w x = false) :
    get_close_matches1 w cands = none := by
  rw [get_close_matches1]
  rw [List.filter_eq_nil_iff.mpr (fun x hx => by simp [h x hx])]
  rfl

/-- A zipWith member comes from a pair of inputs. -/
theorem mem_zipWith_exists {α β γ : Type} (f : α → β → γ) :
    ∀ (as : List α) (bs : List β) (x : γ), x ∈ List.zipWith f as bs →
      ∃ a b, x = f a b := by
  intro as
  induction as with
  | nil => intro bs x h; simp at h
  | cons a as ih =>
    intro bs x h
    cases bs with
    | nil => simp at h
    | cons b bs =>
      rw [List.zipWith_cons_cons] at h
      rcases List.mem_cons.mp h with rfl | h2
      · exact ⟨a, b, rfl⟩
      · exact ih bs x h2

/-- Every candidate string contains at least the separating space. -/
theorem combinedOf_ne_nil (df : Table) (x : Str) (hx : x ∈ combinedOf df) : x ≠ [] := by
  obtain ⟨bb, mm, rfl⟩ := mem_zipWith_exists _ _ _ x hx
  simp [lowerStr]

/-- Claim C1 (amended): over a query shorter than 200 characters (so
difflib autojunk is off), (a) if some candidate brand-model string
occurs verbatim in the lowercased query and the query is at most seven
times the candidate length (so the ratio 2L/(L+T) clears the 0.25
cutoff), then brand and model are both resolved (to the best-scoring
row, not necessarily the contained one: C1_counterexample); (b) a query
sharing no character with any candidate leaves both fields absent. -/
theorem C1_amended_fuzzy (df : Table) (q : Str) (hlen : (lowerStr q).length < 200) :
    (∀ cand ∈ combinedOf df, isSubstr cand (lowerStr q) = true →
        (lowerStr q).length ≤ 7 * cand.length →
        (extract_query_details q df).brand.isSome = true
          ∧ (extract_query_details q df).model.isSome = true)
    ∧ ((∀ cand ∈ combinedOf df, ∀ c ∈ lowerStr q, c ∉ cand) →
        (extract_query_details q df).brand = none
          ∧ (extract_query_details q df).model = none) := by
  constructor
  · intro cand hmem hsub hbound
    obtain ⟨j0, hocc, hch⟩ := isSubstr_spec cand (lowerStr q) hsub
    have hM : cand.length ≤ matchTotal cand (lowerStr q) :=
      matchTotal_ge_of_substring cand (lowerStr q) hlen j0 hocc hch
    have hpass : passesCutoff (lowerStr q) cand = true := by
      rw [passesCutoff, decide_eq_true_eq, scoreDen]
      omega
    obtain ⟨s, hs⟩ := gcm_isSome_of_passes (lowerStr q) (combinedOf df) cand hmem hpass
    have he := extract_brand_of_some q df s hs
    rw [he.1, he.2]
    exact ⟨rfl, rfl⟩
  · intro hno
    have hfail : ∀ x ∈ combinedOf df, passesCutoff (lowerStr q) x = false := by
      intro x hx
      have hM : matchTotal x (lowerStr q) = 0 :=
        matchTotal_zero x (lowerStr q) (fun c hc hcq => hno x hx c hcq hc)
      have hne : x ≠ [] := combinedOf_ne_nil df x hx
      have hxl : 1 ≤ x.length := by
        cases x with
        | nil => exact absurd rfl hne
        | cons c cs => simp
      rw [passesCutoff, hM]
      simp only [Nat.mul_zero, decide_eq_false_iff_not, scoreDen]
      omega
    exact extract_brand_of_none q df (gcm_none_of_allfail _ _ hfail)

/-- Witness for the amended C1: an exact candidate query resolves both
fields; a disjoint-alphabet query resolves neither. -/
theorem C1_amended_fuzzy_witness :
    (lowerStr ("tesla model3".toList)).length < 200
    ∧ ("tesla model3".toList ∈ combinedOf evTable)
    ∧ isSubstr ("tesla model3".toList) (lowerStr ("tesla model3".toList)) = true
    ∧ (extract_query_details ("tesla model3".toList) evTable).brand.isSome = true
    ∧ (extract_query_details ("zzz".toList) evTable).brand = none := by
  refine ⟨by decide, by decide, by decide, ?_, ?_⟩
  · exact ((C1_amended_fuzzy evTable ("tesla model3".toList) (by decide)).1
      ("tesla model3".toList) (by decide) (by decide) (by decide)).1
  · exact ((C1_amended_fuzzy evTable ("zzz".toList) (by decide)).2 (by decide)).1

/- Lemmas about the nlargest tuple order for the amended claim C2. -/

/-- Characters with equal code points are equal. -/
theorem charToNat_inj (c d : Char) (h : c.toNat = d.toNat) : c = d :=
  Char.ext (UInt32.ext h)

/-- Python string order: irreflexive. -/
theorem strLt_irrefl : ∀ s : Str, strLt s s = false := by
  intro s
  induction s with
  | nil => rfl
  | cons c cs ih => simp [strLt, ih]

/-- Python string order: transitive. -/
theorem strLt_trans : ∀ a b c : Str, strLt a b = true → strLt b c = true → strLt a c = true := by
  intro a
  induction a with
  | nil =>
    intro b c hab hbc
    cases b with
    | nil => simp [strLt] at hab
    | cons y ys =>
      cases c with
      | nil => simp [strLt] at hbc
      | cons z zs => rfl
  | cons x xs ih =>
    intro b c hab hbc
    cases b with
    | nil => simp [strLt] at hab
    | cons y ys =>
      cases c with
      | nil => simp [strLt] at hbc
      | cons z zs =>
        simp only [strLt, Bool.or_eq_true, Bool.and_eq_true, decide_eq_true_eq] at hab hbc ⊢
        rcases hab with h1 | ⟨h1, h2⟩
        · rcases hbc with h3 | ⟨h3, h4⟩
          · exact Or.inl (by omega)
          · exact Or.inl (by omega)
        · rcases hbc with h3 | ⟨h3, h4⟩
          · exact Or.inl (by omega)
          · exact Or.inr ⟨by omega, ih ys zs h2 h4⟩

/-- Python string order: two mutually non-smaller strings are equal. -/
theorem strLt_total : ∀ a b : Str, strLt a b = false → strLt b a = false → a = b := by
  intro a
  induction a with
  | nil =>
    intro b hab _
    cases b with
    | nil => rfl
    | cons y ys => simp [strLt] at hab
  | cons x xs ih =>
    intro b hab hba
    cases b with
    | nil => simp [strLt] at hba
    | cons y ys =>
      simp only [strLt, Bool.or_eq_false_iff, Bool.and_eq_false_iff, decide_eq_false_iff_not] at hab hba
      have hxy : x.toNat = y.toNat := by
        rcases hab.2 with h | h
        · rcases hba.2 with h2 | h2
          · omega
          · have h1 := hab.1
            have h2b := hba.1
            omega
        · rcases hba.2 with h2 | h2
          · omega
          · have h1 := hab.1
            have h2b := hba.1
            omega
      have hxy2 : x = y := charToNat_inj x y hxy
      subst hxy2
      have hxs : strLt xs ys = false := by
        rcases hab.2 with h | h
        · omega
        · exact h
      have hys : strLt ys xs = false := by
        rcases hba.2 with h | h
        · omega
        · exact h
      rw [ih ys hxs hys]

/-- The ratio is one on two empty strings. -/
theorem simScore_of_den_zero (x w : Str) (h : scoreDen x w = 0) : simScore x w = 1 := by
  rw [scoreDen] at h
  rw [simScore, if_pos h]

/-- The ratio as a fraction when the strings are not both empty. -/
theorem simScore_of_den_pos (x w : Str) (h : ¬ scoreDen x w = 0) :
    simScore x w = (2 * matchTotal x w : ℚ) / ((x.length : ℚ) + (w.length : ℚ)) := by
  rw [scoreDen] at h
  rw [simScore, if_neg h]

/-- The positive denominator, cast to the rationals. -/
theorem den_cast_pos (x w : Str) (h : ¬ scoreDen x w = 0) :
    (0 : ℚ) < (x.length : ℚ) + (w.length : ℚ) := by
  rw [scoreDen] at h
  have hp : 0 < x.length + w.length := Nat.pos_of_ne_zero h
  exact_mod_cast hp

/-- The integer cutoff test means ratio at least one quarter. -/
theorem passesCutoff_iff (w x : Str) :
    passesCutoff w x = true ↔ (1 : ℚ)/4 ≤ simScore x w := by
  rw [passesCutoff, decide_eq_true_eq]
  by_cases h : scoreDen x w = 0
  · rw [simScore_of_den_zero x w h, h]
    constructor
    · intro _; norm_num
    · intro _; exact Nat.zero_le _
  · rw [simScore_of_den_pos x w h]
    rw [div_le_div_iff₀ (by norm_num) (den_cast_pos x w h)]
    rw [scoreDen]
    constructor
    · intro hle
      have hc : ((x.length + w.length : Nat) : ℚ) ≤ ((8 * matchTotal x w : Nat) : ℚ) := by
        exact_mod_cast hle
      push_cast at hc ⊢
      nlinarith
    · intro hle
      have hc : ((x.length + w.length : Nat) : ℚ) ≤ ((8 * matchTotal x w : Nat) : ℚ) := by
        push_cast
        nlinarith
      exact_mod_cast hc

/-- The integer comparison means strictly smaller ratio. -/
theorem scoreLtB_iff (x y w : Str) :
    scoreLtB x y w = true ↔ simScore x w < simScore y w := by
  rw [scoreLtB]
  by_cases hx : scoreDen x w = 0
  · rw [if_pos hx, simScore_of_den_zero x w hx]
    by_cases hy : scoreDen y w = 0
    · rw [if_pos hy, simScore_of_den_zero y w hy]
      simp
    · rw [if_neg hy, simScore_of_den_pos y w hy, decide_eq_true_eq]
      rw [lt_div_iff₀ (den_cast_pos y w hy), one_mul, scoreDen]
      constructor
      · intro hlt
        have hc : ((y.length + w.length : Nat) : ℚ) < ((2 * matchTotal y w : Nat) : ℚ) := by
          exact_mod_cast hlt
        push_cast at hc ⊢
        linarith
      · intro hlt
        have hc : ((y.length + w.length : Nat) : ℚ) < ((2 * matchTotal y w : Nat) : ℚ) := by
          push_cast
          linarith
        exact_mod_cast hc
  · rw [if_neg hx, simScore_of_den_pos x w hx]
    by_cases hy : scoreDen y w = 0
    · rw [if_pos hy, simScore_of_den_zero y w hy, decide_eq_true_eq]
      rw [div_lt_one (den_cast_pos x w hx), scoreDen]
      constructor
      · intro hlt
        have hc : ((2 * matchTotal x w : Nat) : ℚ) < ((x.length + w.length : Nat) : ℚ) := by
          exact_mod_cast hlt
        push_cast at hc ⊢
        linarith
      · intro hlt
        have hc : ((2 * matchTotal x w : Nat) : ℚ) < ((x.length + w.length : Nat) : ℚ) := by
          push_cast
          linarith
        exact_mod_cast hc
    · rw [if_neg hy, simScore_of_den_pos y w hy, decide_eq_true_eq]
      rw [div_lt_div_iff₀ (den_cast_pos x w hx) (den_cast_pos y w hy), scoreDen, scoreDen]
      constructor
      · intro hlt
        have hc : ((2 * matchTotal x w * (y.length + w.length) : Nat) : ℚ)
            < ((2 * matchTotal y w * (x.length + w.length) : Nat) : ℚ) := by
          exact_mod_cast hlt
        push_cast at hc ⊢
        nlinarith
      · intro hlt
        have hc : ((2 * matchTotal x w * (y.length + w.length) : Nat) : ℚ)
            < ((2 * matchTotal y w * (x.length + w.length) : Nat) : ℚ) := by
          push_cast
          nlinarith
        exact_mod_cast hc

/-- The integer comparison means equal ratios. -/
theorem scoreEqB_iff (x y w : Str) :
    scoreEqB x y w = true ↔ simScore x w = simScore y w := by
  rw [scoreEqB]
  by_cases hx : scoreDen x w = 0
  · rw [if_pos hx, simScore_of_den_zero x w hx]
    by_cases hy : scoreDen y w = 0
    · rw [if_pos hy, simScore_of_den_zero y w hy]
      simp
    · rw [if_neg hy, simScore_of_den_pos y w hy, decide_eq_true_eq]
      rw [eq_div_iff (ne_of_gt (den_cast_pos y w hy)), one_mul, scoreDen]
      constructor
      · intro heq
        exact_mod_cast heq
      · intro heq
        exact_mod_cast heq
  · rw [if_neg hx, simScore_of_den_pos x w hx]
    by_cases hy : scoreDen y w = 0
    · rw [if_pos hy, simScore_of_den_zero y w hy, decide_eq_true_eq]
      rw [div_eq_one_iff_eq (ne_of_gt (den_cast_pos x w hx)), scoreDen]
      constructor
      · intro heq
        exact_mod_cast heq
      · intro heq
        exact_mod_cast heq
    · rw [if_neg hy, simScore_of_den_pos y w hy, decide_eq_true_eq]
      rw [div_eq_div_iff (ne_of_gt (den_cast_pos x w hx)) (ne_of_gt (den_cast_pos y w hy)),
        scoreDen, scoreDen]
      constructor
      · intro heq
        exact_mod_cast heq
      · intro heq
        exact_mod_cast heq

/-- The nlargest tuple comparison, characterized over the rational
score and the string order. -/
theorem betterCand_iff (x b w : Str) :
    betterCand x b w = true ↔
      (simScore b w < simScore x w
        ∨ (simScore x w = simScore b w ∧ strLt b x = true)) := by
  rw [betterCand, Bool.or_eq_true, Bool.and_eq_true, scoreLtB_iff, scoreEqB_iff]

/-- No candidate beats itself. -/
theorem better_irrefl (s w : Str) : betterCand s s w = false := by
  rw [Bool.eq_false_iff]
  intro h
  rcases (betterCand_iff s s w).mp h with hlt | ⟨_, hstr⟩
  · exact absurd hlt (lt_irrefl _)
  · rw [strLt_irrefl s] at hstr
    exact Bool.false_ne_true hstr

/-- The tuple order is transitive. -/
theorem better_trans (x y z w : Str) (h1 : betterCand x y w = true)
    (h2 : betterCand y z w = true) : betterCand x z w = true := by
  rw [betterCand_iff] at h1 h2 ⊢
  rcases h1 with hlt1 | ⟨heq1, hs1⟩
  · rcases h2 with hlt2 | ⟨heq2, hs2⟩
    · exact Or.inl (lt_trans hlt2 hlt1)
    · exact Or.inl (heq2 ▸ hlt1)
  · rcases h2 with hlt2 | ⟨heq2, hs2⟩
    · exact Or.inl (heq1 ▸ hlt2)
    · exact Or.inr ⟨heq1.trans heq2, strLt_trans z y x hs2 hs1⟩

/-- If x does not beat b but beats s, then b beats s. -/
theorem better_step (x b s w : Str) (h1 : betterCand x b w = false)
    (h2 : betterCand x s w = true) : betterCand b s w = true := by
  have h1n : ¬ betterCand x b w = true := by rw [h1]; exact Bool.false_ne_true
  rw [betterCand_iff] at h1n h2 ⊢
  push_neg at h1n
  obtain ⟨hnlt, hne⟩ := h1n
  have hxb : simScore x w ≤ simScore b w := hnlt
  rcases h2 with hlt | ⟨heq, hs⟩
  · exact Or.inl (lt_of_lt_of_le hlt hxb)
  · rcases lt_or_eq_of_le hxb with hlt2 | heq2
    · exact Or.inl (heq ▸ hlt2)
    · have hnstr : ¬ strLt b x = true := hne heq2
      rw [Bool.not_eq_true] at hnstr
      by_cases hxbs : strLt x b = true
      · exact Or.inr ⟨heq2.symm.trans heq, strLt_trans s x b hs hxbs⟩
      · rw [Bool.not_eq_true] at hxbs
        have hxbeq : x = b := strLt_total x b hxbs hnstr
        exact Or.inr ⟨heq2.symm.trans heq, hxbeq ▸ hs⟩

/-- The nlargest accumulator result is beaten by nothing it saw. -/
theorem pickBest_best (w : Str) :
    ∀ (l : List Str) (acc : Option Str) (s : Str), pickBest w l acc = some s →
      (∀ x ∈ l, betterCand x s w = false) ∧ (∀ b, acc = some b → betterCand b s w = false) := by
  intro l
  induction l with
  | nil =>
    intro acc s h
    refine ⟨fun x hx => absurd hx (by simp), fun b hb => ?_⟩
    have hacc : acc = some s := h
    rw [hacc] at hb
    injection hb with hb2
    subst hb2
    exact better_irrefl s w
  | cons x xs ih =>
    intro acc s h
    cases hacc : acc with
    | none =>
      rw [hacc] at h
      have h2 : pickBest w xs (some x) = some s := h
      have hs := ih (some x) s h2
      have hxs : betterCand x s w = false := hs.2 x rfl
      refine ⟨fun y hy => ?_, fun b hb => absurd hb (by simp)⟩
      rcases List.mem_cons.mp hy with rfl | hy2
      · exact hxs
      · exact hs.1 y hy2
    | some b =>
      rw [hacc] at h
      have h2 : pickBest w xs (if betterCand x b w then some x else some b) = some s := h
      by_cases hc : betterCand x b w = true
      · rw [if_pos hc] at h2
        have hs := ih (some x) s h2
        have hxs : betterCand x s w = false := hs.2 x rfl
        have hbs : betterCand b s w = false := by
          rw [Bool.eq_false_iff]
          intro hbs2
          have := better_trans x b s w hc hbs2
          rw [hxs] at this
          exact Bool.false_ne_true this
        refine ⟨fun y hy => ?_, fun b2 hb2 => ?_⟩
        · rcases List.mem_cons.mp hy with rfl | hy2
          · exact hxs
          · exact hs.1 y hy2
        · injection hb2 with hb3
          subst hb3
          exact hbs
      · have hcf : betterCand x b w = false := Bool.eq_false_iff.mpr hc
        rw [if_neg hc] at h2
        have hs := ih (some b) s h2
        have hbs : betterCand b s w = false := hs.2 b rfl
        have hxs : betterCand x s w = false := by
          rw [Bool.eq_false_iff]
          intro hxs2
          have := better_step x b s w hcf hxs2
          rw [hbs] at this
          exact Bool.false_ne_true this
        refine ⟨fun y hy => ?_, fun b2 hb2 => ?_⟩
        · rcases List.mem_cons.mp hy with rfl | hy2
          · exact hxs
          · exact hs.1 y hy2
        · injection hb2 with hb3
          subst hb3
          exact hbs

/-- Entries before the first occurrence differ from the sought value. -/
theorem indexOfStr_first (s : Str) :
    ∀ (l : List Str) (i : Nat), i < indexOfStr l s → l.getD i [] ≠ s := by
  intro l
  induction l with
  | nil => intro i hi; rw [indexOfStr] at hi; omega
  | cons x xs ih =>
    intro i hi
    rw [indexOfStr] at hi
    by_cases hx : x == s
    · rw [if_pos hx] at hi; omega
    · rw [if_neg hx] at hi
      cases i with
      | zero =>
        intro he
        simp only [List.getD_cons_zero] at he
        exact hx (by rw [he]; exact beq_self_eq_true s)
      | succ i2 =>
        rw [List.getD_cons_succ]
        exact ih i2 (by omega)

/-- Claim C2 (amended): the fuzzy matcher resolves to the single best
approximate match of the full lowercased input against the candidate
list with cutoff 0.25 on the 0-1 ratio scale — no candidate above the
cutoff means both fields stay absent, some candidate above the cutoff
forces a match — and when several candidates tie at the highest ratio,
the chosen candidate is the lexicographically greatest string among the
tied ones (not the first in table order: C2_counterexample), the row
being the first row whose candidate equals that string. -/
theorem C2_amended_best_match (df : Table) (q : Str) (bs ms : List Str)
    (hb : lookupCol df ("brand") = some (ColData.strs bs))
    (hm : lookupCol df ("model") = some (ColData.strs ms)) :
    ((∀ x ∈ combinedOf df, passesCutoff (lowerStr q) x = false) →
      (extract_query_details q df).brand = none ∧ (extract_query_details q df).model = none)
    ∧ (∀ x ∈ combinedOf df, passesCutoff (lowerStr q) x = true →
        ∃ s, get_close_matches1 (lowerStr q) (combinedOf df) = some s)
    ∧ (∀ s, get_close_matches1 (lowerStr q) (combinedOf df) = some s →
        s ∈ combinedOf df
        ∧ (1 : ℚ)/4 ≤ simScore s (lowerStr q)
        ∧ (∀ x ∈ combinedOf df, passesCutoff (lowerStr q) x = true →
            simScore x (lowerStr q) < simScore s (lowerStr q)
            ∨ (simScore x (lowerStr q) = simScore s (lowerStr q) ∧ strLt s x = false))
        ∧ (extract_query_details q df).brand
            = some (bs.getD (indexOfStr (combinedOf df) s) [])
        ∧ (extract_query_details q df).model
            = some (ms.getD (indexOfStr (combinedOf df) s) [])
        ∧ (combinedOf df).getD (indexOfStr (combinedOf df) s) [] = s
        ∧ (∀ i, i < indexOfStr (combinedOf df) s → (combinedOf df).getD i [] ≠ s)) := by
  have hbs := strColD_of_lookup df ("brand") bs hb
  have hms := strColD_of_lookup df ("model") ms hm
  refine ⟨fun hall => extract_brand_of_none q df (gcm_none_of_allfail _ _ hall),
    fun x hx hp => gcm_isSome_of_passes _ _ x hx hp, fun s hg => ?_⟩
  obtain ⟨hmem, hpass⟩ := get_close_matches1_mem _ _ _ hg
  have hbest : ∀ x ∈ (combinedOf df).filter (passesCutoff (lowerStr q)),
      betterCand x s (lowerStr q) = false := by
    intro x hx
    exact (pickBest_best (lowerStr q) _ none s hg).1 x hx
  have he := extract_brand_of_some q df s hg
  refine ⟨hmem, (passesCutoff_iff _ _).mp hpass, fun x hx hp => ?_, ?_, ?_, ?_, ?_⟩
  · have hxf : x ∈ (combinedOf df).filter (passesCutoff (lowerStr q)) :=
      List.mem_filter.mpr ⟨hx, hp⟩
    have hbc : betterCand x s (lowerStr q) = false := hbest x hxf
    have hbcn : ¬ betterCand x s (lowerStr q) = true := by
      rw [hbc]; exact Bool.false_ne_true
    rw [betterCand_iff] at hbcn
    push_neg at hbcn
    obtain ⟨hnlt, hne⟩ := hbcn
    rcases lt_or_eq_of_le hnlt with hlt | heq
    · exact Or.inl hlt
    · refine Or.inr ⟨heq, ?_⟩
      rw [Bool.eq_false_iff]
      exact hne heq
  · rw [hbs] at he
    exact he.1
  · rw [hms] at he
    exact he.2
  · exact indexOfStr_getD s _ hmem
  · exact fun i hi => indexOfStr_first s _ i hi

/-- Witness for the amended C2 at the tie table: the two candidates tie
at ratio 0.4 and the lexicographically greater one, second in table
order, is chosen. -/
theorem C2_amended_best_match_witness :
    get_close_matches1 (lowerStr ("ab".toList))
        (combinedOf [("brand", ColData.strs [['a'], ['b']]),
          ("model", ColData.strs [['x'], ['y']])]) = some ("b y".toList)
    ∧ (extract_query_details ("ab".toList)
        [("brand", ColData.strs [['a'], ['b']]),
         ("model", ColData.strs [['x'], ['y']])]).brand = some ['b']
    ∧ (extract_query_details ("ab".toList)
        [("brand", ColData.strs [['a'], ['b']]),
         ("model", ColData.strs [['x'], ['y']])]).model = some ['y'] := by
  refine ⟨by decide, ?_, ?_⟩
  · have hc := ((C2_amended_best_match
      [("brand", ColData.strs [['a'], ['b']]), ("model", ColData.strs [['x'], ['y']])]
      ("ab".toList) [['a'], ['b']] [['x'], ['y']] (by decide) (by decide)).2.2
      ("b y".toList) (by decide)).2.2.2.1
    rw [hc]
    decide
  · have hc := ((C2_amended_best_match
      [("brand", ColData.strs [['a'], ['b']]), ("model", ColData.strs [['x'], ['y']])]
      ("ab".toList) [['a'], ['b']] [['x'], ['y']] (by decide) (by decide)).2.2
      ("b y".toList) (by decide)).2.2.2.2.1
    rw [hc]
    decide
